import Mathlib

/-!
# Verification of the numeric tower of `src/number.c`

This file is a shallow embedding, in Lean 4, of the parts of `src/number.c`
(Gauche's numeric tower, version 1.138) that the specification claims talk
about, together with theorems settling each claim.

Modelling conventions, used throughout:

* The platform is the 64-bit one (`SIZEOF_LONG == 8`), as in the spec's
  "±2^61 on 64-bit": `SCM_SMALL_INT_MAX = 2^61 - 1`, `SCM_SMALL_INT_MIN
  = -2^61`.
* `SmallInt` and `BigInt` are merged into a single constructor `ScmNum.int`
  carrying the exact integer value.  The C code dispatches on `SCM_INTP`
  versus `SCM_BIGNUMP`; since constructors normalize (a bignum is never
  stored where a fixnum fits), that dispatch is recovered here by testing
  `isSmall` on the value.  Wherever the small path and the bignum path of
  an operation compute the same exact integer (e.g. the overflow-checked
  fixnum product followed by `Scm_BignumMulSI` on the promoted value),
  the two are written as the single exact operation, with a comment.
* IEEE-754 binary64 numbers are the inductive type `DD`: finite values are
  a sign, a mantissa `f < 2^53` and an exponent `e` with value
  `(-1)^sign * f * 2^e` (canonical: `f >= 2^52` unless `e = -1074`, and
  zero is `f = 0, e = 0`), exactly the decomposition `Scm_DecodeFlonum`
  produces; `inf`/`nan` mirror its special returns.  The arithmetic the
  claims need (`+`, `-`, `*`, `/`, conversions) is implemented as the
  exact rational operation followed by round-to-nearest-ties-to-even,
  which is what IEEE 754 requires of the C operations used by the source.
* Big-integer primitives (`Scm_BignumAdd`, `Scm_BignumDivSI`,
  `Scm_BignumCmp`, ... from `bignum.c`) are not part of `src/`.
  Modelled from the spec: §6 lists them as exact arbitrary-precision
  integer operations with `big_from_f64` rounding toward zero and
  `quotient` truncating toward zero, so they are modelled as the
  corresponding exact operations on `ℤ`.
-/

set_option maxRecDepth 100000

namespace Gauche

/-! ## Bit length (replacement for `log2`-style estimates)

`Nat.log2` does not reduce in the kernel, so we use a fuel-based bit
length.  `bitlen n` is the number of binary digits of `n` (`0` for `0`).
All numbers reaching it are far below `2^8192`. -/

def bitlenF : ℕ → ℕ → ℕ
  | 0, _ => 0
  | fuel + 1, n => if n = 0 then 0 else 1 + bitlenF fuel (n / 2)

def bitlen (n : ℕ) : ℕ := bitlenF 8192 n

/-! ## The binary64 model `DD` -/

/-- IEEE-754 binary64, as decomposed by `Scm_DecodeFlonum` in the source:
a finite value is `(-1)^neg * f * 2^e` with `0 ≤ f < 2^53`; infinity and
NaN are the special returns (`SCM_TRUE` / `SCM_FALSE`) of that function. -/
inductive DD where
  | fin : Bool → ℕ → ℤ → DD
  | inf : Bool → DD
  | nan : DD
deriving DecidableEq, Repr

/-- Round the positive rational `num / den` (both `≥ 1`) to the nearest
binary64 magnitude, ties to even — the rounding IEEE 754 prescribes for
every arithmetic operation and conversion used by the source. -/
def roundPosRat (num den : ℕ) : DD :=
  let bn : ℤ := (bitlen num : ℤ) - 1
  let bd : ℤ := (bitlen den : ℤ) - 1
  let s0 : ℤ := 52 - (bn - bd)
  let floorAt : ℤ → ℕ := fun s =>
    if 0 ≤ s then num * 2 ^ s.toNat / den else num / (den * 2 ^ (-s).toNat)
  let s1 : ℤ := if floorAt s0 < 2 ^ 52 then s0 + 1 else s0
  if s1 < -971 then DD.inf false
  else
    let s2 : ℤ := if 1074 < s1 then 1074 else s1
    let N : ℕ := if 0 ≤ s2 then num * 2 ^ s2.toNat else num
    let D : ℕ := if 0 ≤ s2 then den else den * 2 ^ (-s2).toNat
    let q : ℕ := N / D
    let r : ℕ := N % D
    let f : ℕ := q + (if D < 2 * r then 1 else if 2 * r = D then q % 2 else 0)
    if f = 0 then DD.fin false 0 0
    else if 2 ^ 53 ≤ f then
      if s2 - 1 < -971 then DD.inf false else DD.fin false (2 ^ 52) (-(s2 - 1))
    else DD.fin false f (-s2)

/-- Negate a binary64 (flips the sign bit, also of zeroes and infinities). -/
def DD.neg : DD → DD
  | DD.fin b f e => DD.fin (!b) f e
  | DD.inf b => DD.inf (!b)
  | DD.nan => DD.nan

/-- Force the sign of a (nonnegative-valued) rounding result. -/
def DD.withSign : DD → Bool → DD
  | DD.fin _ f e, b => DD.fin b f e
  | DD.inf _, b => DD.inf b
  | DD.nan, _ => DD.nan

/-- Round the signed dyadic `m * 2^e` to the nearest binary64 (ties even). -/
def roundDyadic (m : ℤ) (e : ℤ) : DD :=
  if m = 0 then DD.fin false 0 0
  else
    let mag :=
      if 0 ≤ e then roundPosRat (m.natAbs * 2 ^ e.toNat) 1
      else roundPosRat m.natAbs (2 ^ (-e).toNat)
    mag.withSign (decide (m < 0))

/-- Conversion of an exact integer to binary64: the C cast `(double)long`
(round to nearest) for fixnums; for bignums this is `Scm_BignumToDouble`,
which lives in `bignum.c` outside `src/` — modelled from the spec (§6
`big_to_f64`) as the same correctly rounded conversion. -/
def i2d (i : ℤ) : DD := roundDyadic i 0

/-- IEEE binary64 addition, correctly rounded (ties even). -/
def fadd (x y : DD) : DD :=
  match x, y with
  | DD.nan, _ => DD.nan
  | _, DD.nan => DD.nan
  | DD.inf a, DD.inf b => if a = b then DD.inf a else DD.nan
  | DD.inf a, DD.fin .. => DD.inf a
  | DD.fin .., DD.inf b => DD.inf b
  | DD.fin n1 f1 e1, DD.fin n2 f2 e2 =>
    if f1 = 0 ∧ f2 = 0 then DD.fin (n1 && n2) 0 0
    else
      let m1 : ℤ := if n1 then -(f1 : ℤ) else (f1 : ℤ)
      let m2 : ℤ := if n2 then -(f2 : ℤ) else (f2 : ℤ)
      let emin := min e1 e2
      roundDyadic (m1 * 2 ^ (e1 - emin).toNat + m2 * 2 ^ (e2 - emin).toNat) emin

/-- IEEE binary64 subtraction. -/
def fsub (x y : DD) : DD := fadd x y.neg

/-- IEEE binary64 multiplication, correctly rounded (ties even). -/
def fmul (x y : DD) : DD :=
  match x, y with
  | DD.nan, _ => DD.nan
  | _, DD.nan => DD.nan
  | DD.inf a, DD.inf b => DD.inf (a != b)
  | DD.inf a, DD.fin n2 f2 _ => if f2 = 0 then DD.nan else DD.inf (a != n2)
  | DD.fin n1 f1 _, DD.inf b => if f1 = 0 then DD.nan else DD.inf (n1 != b)
  | DD.fin n1 f1 e1, DD.fin n2 f2 e2 =>
    if f1 = 0 ∨ f2 = 0 then DD.fin (n1 != n2) 0 0
    else (roundDyadic ((f1 : ℤ) * f2) (e1 + e2)).withSign (n1 != n2)

/-- IEEE binary64 division, correctly rounded (ties even). -/
def fdiv (x y : DD) : DD :=
  match x, y with
  | DD.nan, _ => DD.nan
  | _, DD.nan => DD.nan
  | DD.inf _, DD.inf _ => DD.nan
  | DD.inf a, DD.fin n2 _ _ => DD.inf (a != n2)
  | DD.fin n1 _ _, DD.inf b => DD.fin (n1 != b) 0 0
  | DD.fin n1 f1 e1, DD.fin n2 f2 e2 =>
    let neg := n1 != n2
    if f2 = 0 then (if f1 = 0 then DD.nan else DD.inf neg)
    else if f1 = 0 then DD.fin neg 0 0
    else
      let d : ℤ := e1 - e2
      let mag :=
        if 0 ≤ d then roundPosRat (f1 * 2 ^ d.toNat) f2
        else roundPosRat f1 (f2 * 2 ^ (-d).toNat)
      mag.withSign neg

/-- Sign of a binary64 as the C comparisons `r < 0` / `r > 0` see it:
`-1`, `0` or `1`, with NaN giving `0` (both comparisons are false). -/
def dcmpSign : DD → ℤ
  | DD.nan => 0
  | DD.inf b => if b then -1 else 1
  | DD.fin neg f _ => if f = 0 then 0 else if neg then -1 else 1

/-- Whether a binary64 is integral (`modf` fractional part `== 0.0`).
Note `modf(±∞)` has zero fractional part, so infinities count. -/
def dIsIntegral : DD → Bool
  | DD.nan => false
  | DD.inf _ => true
  | DD.fin _ f e => 0 ≤ e ∨ (2 ^ (-e).toNat : ℕ) ∣ f

/-- Truncation of a finite binary64 toward zero, as an integer
(`Scm_MakeBignumFromDouble` / the C cast; spec §6: `big_from_f64` rounds
toward zero).  The infinite/NaN cases are unreachable in the paths the
claims exercise and return `0`. -/
def dtruncToInt : DD → ℤ
  | DD.nan => 0
  | DD.inf _ => 0
  | DD.fin neg f e =>
    let m : ℕ := if 0 ≤ e then f * 2 ^ e.toNat else f / 2 ^ (-e).toNat
    if neg then -(m : ℤ) else (m : ℤ)

/-- `floor` on binary64 (result is exactly representable, no rounding). -/
def dfloor : DD → DD
  | DD.nan => DD.nan
  | DD.inf b => DD.inf b
  | DD.fin neg f e =>
    if 0 ≤ e then DD.fin neg f e
    else
      let q : ℕ := f / 2 ^ (-e).toNat
      let exact : Bool := (2 ^ (-e).toNat : ℕ) ∣ f
      if neg then (if exact then roundDyadic (-(q : ℤ)) 0 else roundDyadic (-(q : ℤ) - 1) 0)
      else (if q = 0 then DD.fin false 0 0 else roundDyadic (q : ℤ) 0)

/-- `ceil` on binary64. -/
def dceil : DD → DD
  | DD.nan => DD.nan
  | DD.inf b => DD.inf b
  | x => (dfloor x.neg).neg

/-- `trunc` on binary64 (toward zero). -/
def dtrunc : DD → DD
  | DD.nan => DD.nan
  | DD.inf b => DD.inf b
  | DD.fin neg f e =>
    if 0 ≤ e then DD.fin neg f e
    else
      let q : ℕ := f / 2 ^ (-e).toNat
      if q = 0 then DD.fin neg 0 0 else roundDyadic (if neg then -(q : ℤ) else q) 0

/-- `rint` / the source's `roundeven`: round to the nearest integer, ties
to even (the result is exactly representable). -/
def droundeven : DD → DD
  | DD.nan => DD.nan
  | DD.inf b => DD.inf b
  | DD.fin neg f e =>
    if 0 ≤ e then DD.fin neg f e
    else
      let k := (-e).toNat
      let q : ℕ := f / 2 ^ k
      let r : ℕ := f % 2 ^ k
      let n : ℕ := q + (if 2 ^ k < 2 * r then 1 else if 2 * r = 2 ^ k then q % 2 else 0)
      if n = 0 then DD.fin neg 0 0 else roundDyadic (if neg then -(n : ℤ) else n) 0

/-- Exact `fmod` on binary64 (the C `fmod` result is always exact). -/
def dfmod (x y : DD) : DD :=
  match x, y with
  | DD.fin neg f e, DD.fin _ g h =>
    if g = 0 then DD.nan
    else
      -- |x| mod |y| on the common dyadic grid, sign of x (C99 fmod)
      let emin := min e h
      let a : ℕ := f * 2 ^ (e - emin).toNat
      let b : ℕ := g * 2 ^ (h - emin).toNat
      roundDyadic (if neg then -((a % b : ℕ) : ℤ) else ((a % b : ℕ) : ℤ)) emin
  | DD.nan, _ => DD.nan
  | _, DD.nan => DD.nan
  | DD.inf _, _ => DD.nan
  | DD.fin neg f e, DD.inf _ => DD.fin neg f e

/-! ## The tagged numeric value -/

/-- The numeric `ScmObj` variants of the source.  `int` merges `SmallInt`
and `BigInt` (see the header comment); `ratnum` stores numerator and
denominator exactly as the `ScmRatnum` fields; `flonum`/`compnum` carry
binary64 values. -/
inductive ScmNum where
  | int : ℤ → ScmNum
  | ratnum : ℤ → ℤ → ScmNum
  | flonum : DD → ScmNum
  | compnum : DD → DD → ScmNum
deriving DecidableEq, Repr

/-- `SCM_SMALL_INT_MAX` on the modelled 64-bit platform. -/
def smallIntMax : ℤ := 2 ^ 61 - 1
/-- `SCM_SMALL_INT_MIN` on the modelled 64-bit platform. -/
def smallIntMin : ℤ := -(2 ^ 61)

/-- Whether a value would be stored as a fixnum (`SCM_INTP`); constructors
normalize, so a merged `ScmNum.int i` is `SCM_INTP` iff `isSmall i`. -/
def isSmall (i : ℤ) : Bool := smallIntMin ≤ i ∧ i ≤ smallIntMax

/-- Truncating division, the semantics of C's `/` on `long` and of
`Scm_BignumDivSI` / `Scm_BignumDivRem` (spec §4.5: truncation toward
zero). -/
def tdiv (a b : ℤ) : ℤ := Int.tdiv a b

/-- The matching remainder (C `%`): `a - b * tdiv a b`, sign of `a`. -/
def tmod (a b : ℤ) : ℤ := Int.tmod a b

/-- Distinguished flonum `SCM_POSITIVE_INFINITY` (`1.0/0.0`). -/
def posInf : ScmNum := ScmNum.flonum (DD.inf false)
/-- Distinguished flonum `SCM_NEGATIVE_INFINITY` (`-1.0/0.0`). -/
def negInf : ScmNum := ScmNum.flonum (DD.inf true)
/-- Distinguished flonum `SCM_NAN` (`0.0/0.0`). -/
def scmNaN : ScmNum := ScmNum.flonum DD.nan

/-- `Scm_IntegerP`. -/
def integerP : ScmNum → Bool
  | ScmNum.int _ => true
  | ScmNum.ratnum _ _ => false
  | ScmNum.flonum d => dIsIntegral d
  | ScmNum.compnum _ _ => false

/-- `Scm_OddP` (error cases folded to `false`; integer arguments only in
the paths the claims exercise).  The fixnum mask `value & 1` and the
bignum low digit `values[0] & 1` are both the parity of the magnitude. -/
def oddP : ScmNum → Bool
  | ScmNum.int a => a.natAbs % 2 = 1
  | ScmNum.flonum d => dIsIntegral d && dcmpSign (dfmod d (i2d 2)) ≠ 0
  | _ => false

/-- `Scm_Sign`: `-1`, `0`, `1`; errors (`none`) on a compnum. -/
def scmSign : ScmNum → Option ℤ
  | ScmNum.int a => some (Int.sign a)
  | ScmNum.ratnum n _ => some (Int.sign n)
  | ScmNum.flonum d => some (dcmpSign d)
  | ScmNum.compnum _ _ => none

/-- `Scm_GetDouble`.  The ratnum case recursively divides the converted
numerator by the converted denominator, as the source does; a compnum
falls through to `return 0.0`. -/
def getDouble : ScmNum → DD
  | ScmNum.int i => i2d i
  | ScmNum.flonum d => d
  | ScmNum.ratnum n d => fdiv (i2d n) (i2d d)
  | ScmNum.compnum _ _ => DD.fin false 0 0

/-- Exact IEEE comparison of two binary64 values: `some (-1|0|1)`, or
`none` when unordered (a NaN operand).  C's `<`, `==`, `>` on doubles. -/
def dcmpE (x y : DD) : Option ℤ :=
  match x, y with
  | DD.nan, _ => none
  | _, DD.nan => none
  | DD.inf a, DD.inf b => some (if a = b then 0 else if a then -1 else 1)
  | DD.inf a, DD.fin .. => some (if a then -1 else 1)
  | DD.fin .., DD.inf b => some (if b then 1 else -1)
  | DD.fin n1 f1 e1, DD.fin n2 f2 e2 =>
    let emin := min e1 e2
    let m1 : ℤ := (if n1 then -(f1 : ℤ) else (f1 : ℤ)) * 2 ^ (e1 - emin).toNat
    let m2 : ℤ := (if n2 then -(f2 : ℤ) else (f2 : ℤ)) * 2 ^ (e2 - emin).toNat
    some (Int.sign (m1 - m2))

/-- `fabs` on binary64. -/
def dabs : DD → DD
  | DD.fin _ f e => DD.fin false f e
  | DD.inf _ => DD.inf false
  | DD.nan => DD.nan

/-! ## Integer gcd, quotient, modulo -/

/-- The exact-integer core of `Scm_Gcd` (both arguments exact integers).
The zero shortcuts `if (SCM_EXACT_ZERO_P(x)) return y;` /
`if (SCM_EXACT_ZERO_P(y)) return x;` return the *other argument
unchanged* — in particular a negative `y` is returned negative.  The
remaining four paths (`gcd_fixfix`, the two `gcd_bigfix` mixed paths and
the big-integer Euclid loop) each compute the Euclidean gcd of the two
absolute values, which is `Int.gcd`; they are merged here. -/
def gcdInts (a b : ℤ) : ℤ :=
  if a = 0 then b else if b = 0 then a else (Int.gcd a b : ℤ)

/-- The `gcd_floflo` real Euclid loop (`while (y > 0) x, y = y, fmod(x,y)`),
run on `fabs` of the operands, larger first; fuel-bounded (the loop count
for binary64 inputs is far below the fuel). -/
def gcdFloLoop : ℕ → DD → DD → DD
  | 0, x, _ => x
  | fuel + 1, x, y =>
    if dcmpE y (DD.fin false 0 0) = some 1 then gcdFloLoop fuel y (dfmod x y) else x

/-- `Scm_Gcd`.  `none` models `Scm_Error` (non-integer argument). -/
def scmGcd (x y : ScmNum) : Option ScmNum :=
  if ¬ integerP x ∨ ¬ integerP y then none
  else match x, y with
    | ScmNum.flonum _, _ | _, ScmNum.flonum _ =>
      let dx := dabs (getDouble x)
      let dy := dabs (getDouble y)
      some (ScmNum.flonum
        (if dcmpE dx dy = some (-1) then gcdFloLoop 4096 dy dx else gcdFloLoop 4096 dx dy))
    | ScmNum.int a, ScmNum.int b => some (ScmNum.int (gcdInts a b))
    | _, _ => none

/-- The `DO_FLONUM` tail of `Scm_Quotient`: `q = roundeven(rx/ry)`,
`rem = roundeven(rx - q*ry)`; `none` on a zero divisor. -/
def quotientFlonum (rx ry : DD) : Option (ScmNum × ScmNum) :=
  if dcmpE ry (DD.fin false 0 0) = some 0 then none
  else
    let q := droundeven (fdiv rx ry)
    let rr := droundeven (fsub rx (fmul q ry))
    some (ScmNum.flonum q, ScmNum.flonum rr)

/-- `Scm_Quotient` (the `rem` out-parameter is modelled by always
returning the pair).  The fixnum `/`,`%`, `Scm_BignumDivSI`,
`Scm_BignumDivRem` and the `INTP/BIGNUMP` shortcut (`q = 0, rem = x`,
valid because a normalized bignum exceeds every fixnum in magnitude) all
truncate toward zero and are merged into `tdiv`/`tmod`.  `none` models
`Scm_Error` (zero divisor or non-integral argument). -/
def scmQuotient (x y : ScmNum) : Option (ScmNum × ScmNum) :=
  if y = ScmNum.int 1 then
    if integerP x then some (x, ScmNum.int 0) else none
  else match x, y with
    | ScmNum.int a, ScmNum.int b =>
      if b = 0 then none else some (ScmNum.int (tdiv a b), ScmNum.int (tmod a b))
    | ScmNum.int a, ScmNum.flonum ry =>
      if dIsIntegral ry then quotientFlonum (i2d a) ry else none
    | ScmNum.flonum rx, ScmNum.int b =>
      if dIsIntegral rx then quotientFlonum rx (i2d b) else none
    | ScmNum.flonum rx, ScmNum.flonum ry =>
      if dIsIntegral rx then (if dIsIntegral ry then quotientFlonum rx ry else none) else none
    | _, _ => none

/-- The `DO_FLONUM` tail of `Scm_Modulo`. -/
def moduloFlonum (rx ry : DD) (remp : Bool) : Option ScmNum :=
  if dcmpE ry (DD.fin false 0 0) = some 0 then none
  else
    let rem := dfmod rx ry
    if ¬ remp ∧ dcmpE rem (DD.fin false 0 0) ≠ some 0 ∧
        (dcmpSign rx = 1 ∧ dcmpSign ry = -1 ∨ dcmpSign rx = -1 ∧ dcmpSign ry = 1) then
      some (ScmNum.flonum (fadd rem ry))
    else some (ScmNum.flonum rem)

/-- `Scm_Modulo` (`remp = true` gives `remainder`, `false` gives
`modulo`).  The fixnum/bignum variants all take the truncating remainder
and, for `modulo` with oppositely signed nonzero operands, add the
divisor; they are merged (the `INTP/BIGNUMP` branch lacks the explicit
`r != 0` test, but `x = 0` fails its sign test, so the merge is exact). -/
def scmModulo (x y : ScmNum) (remp : Bool) : Option ScmNum :=
  match x, y with
  | ScmNum.int a, ScmNum.int b =>
    if b = 0 then none
    else
      let r := tmod a b
      if ¬ remp ∧ r ≠ 0 ∧ (a > 0 ∧ b < 0 ∨ a < 0 ∧ b > 0) then some (ScmNum.int (r + b))
      else some (ScmNum.int r)
  | ScmNum.int a, ScmNum.flonum ry =>
    if dIsIntegral ry then moduloFlonum (i2d a) ry remp else none
  | ScmNum.flonum rx, ScmNum.int b =>
    if dIsIntegral rx then moduloFlonum rx (i2d b) remp else none
  | ScmNum.flonum rx, ScmNum.flonum ry =>
    if dIsIntegral rx then (if dIsIntegral ry then moduloFlonum rx ry remp else none) else none
  | _, _ => none

/-! ## Rational construction and reduction -/

/-- The body of `Scm_ReduceRational` after the sign normalization, on
the (possibly negated) numerator and denominator.  In the `common = 1`
case the source returns `Scm_MakeRatnum(numer, denom)` when it negated
and the original object otherwise; both are the ratnum with the
normalized fields, so they are written as one. -/
def reduceCore (n d : ℤ) : ScmNum :=
  if d = 1 then ScmNum.int n
  else if d = 0 then
    (if Int.sign n > 0 then posInf else if Int.sign n < 0 then negInf else scmNaN)
  else
    let common := gcdInts n d
    if common = 1 then ScmNum.ratnum n d
    else
      let n' := tdiv n common
      let d' := tdiv d common
      if d' = 1 then ScmNum.int n' else ScmNum.ratnum n' d'

/-- The body of `Scm_ReduceRational` on a ratnum with the given stored
numerator and denominator: if `Scm_Sign(denom) < 0`, both parts are
negated (`negated = TRUE`), then the common reduction runs. -/
def reduceRatnum (numer denom : ℤ) : ScmNum :=
  if Int.sign denom < 0 then reduceCore (-numer) (-denom) else reduceCore numer denom

/-- `Scm_ReduceRational`; `none` models the error on a non-rational. -/
def scmReduceRational : ScmNum → Option ScmNum
  | ScmNum.int a => some (ScmNum.int a)
  | ScmNum.ratnum n d => some (reduceRatnum n d)
  | _ => none

/-- `Scm_MakeRational` (the integer-type guards are enforced by the `ℤ`
argument types). -/
def makeRational (numer denom : ℤ) : ScmNum :=
  if denom = 1 then ScmNum.int numer
  else if numer = 0 then ScmNum.int 0
  else reduceRatnum numer denom

/-- `Scm_Negate` (the generic fallback is unreachable: every `ScmNum` is
a number). -/
def scmNegate : ScmNum → ScmNum
  | ScmNum.int a => ScmNum.int (-a)
  | ScmNum.flonum d => ScmNum.flonum d.neg
  | ScmNum.ratnum n d => makeRational (-n) d
  | ScmNum.compnum r i => ScmNum.compnum r.neg i.neg

/-- Numerator/denominator view used by `Scm_RatnumAddSub` and
`Scm_RatnumMulDiv`: a ratnum's fields, or `x/1` for an exact integer.
`none` for the inexact variants, whose use would violate the functions'
stated precondition ("x, y must be exact numbers"). -/
def ratParts : ScmNum → Option (ℤ × ℤ)
  | ScmNum.int a => some (a, 1)
  | ScmNum.ratnum n d => some (n, d)
  | _ => none

/-- `Scm_RatnumAddSub`.  All intermediate `Scm_Mul` / `Scm_Quotient` /
`Scm_NumEq` calls are on exact integers and are written as the integer
operations (`Scm_Quotient` divides a denominator by one of its divisors,
so truncation is exact division; the divisor is nonzero for every
invariant-satisfying input).  The `dx = 1` test appears twice because the
source tests `SCM_EXACT_ONE_P(dx)` twice (sic). -/
def ratnumAddSub (x y : ScmNum) (subtract : Bool) : Option ScmNum := do
  let (nx0, dx) ← ratParts x
  let (ny0, dy) ← ratParts y
  let finish : ℤ → ℤ → ℤ → ScmNum := fun nx ny dr =>
    makeRational (if subtract then nx - ny else nx + ny) dr
  if dx = dy then
    return finish nx0 ny0 dx
  else
    let gcd := if dx = 1 ∨ dx = 1 then 1 else gcdInts dx dy
    if dx = gcd then
      return finish (tdiv dy dx * nx0) ny0 dy
    else if dy = gcd then
      return finish nx0 (tdiv dx dy * ny0) dx
    else
      let fx := tdiv dx gcd
      let fy := tdiv dy gcd
      return finish (nx0 * fy) (ny0 * fx) (dx * fy)

/-- `Scm_RatnumMulDiv`. -/
def ratnumMulDiv (x y : ScmNum) (divide : Bool) : Option ScmNum := do
  let (nx, dx) ← ratParts x
  let (ny0, dy0) ← ratParts y
  let ny := if divide then dy0 else ny0
  let dy := if divide then ny0 else dy0
  return makeRational (nx * ny) (dx * dy)

/-! ## The binary dispatch matrix: add, sub, mul, div

The generic-function fallback (`Scm_ApplyRec(generic_*, ...)`) is only
reached for non-numbers, which do not exist in `ScmNum`; every dispatch
below is therefore total on numbers, exactly as in the source.  The
fixnum fast paths with overflow promotion (`Scm_MakeInteger` of the
machine sum, `Scm_BignumAdd`, `Scm_BignumMulSI` after the
`(v1 != 0 && k/v1 != v0)` overflow test, etc.) all compute the exact
integer result and are merged into the exact operation, per the header
comment. -/

/-- `Scm_MakeComplex`: collapse a zero imaginary part to a flonum. -/
def makeComplex (r i : DD) : ScmNum :=
  if dcmpE i (DD.fin false 0 0) = some 0 then ScmNum.flonum r else ScmNum.compnum r i

/-- `Scm_Add`; `none` only for the unreachable generic fallback. -/
def scmAdd (arg0 arg1 : ScmNum) : Option ScmNum :=
  match arg0, arg1 with
  | ScmNum.int a, ScmNum.int b => some (ScmNum.int (a + b))
  | ScmNum.int a, ScmNum.ratnum n d =>
    if a = 0 then some arg1 else ratnumAddSub arg0 (ScmNum.ratnum n d) false
  | ScmNum.int a, ScmNum.flonum y =>
    if a = 0 then some arg1 else some (ScmNum.flonum (fadd (i2d a) y))
  | ScmNum.int a, ScmNum.compnum r i =>
    if a = 0 then some arg1 else some (makeComplex (fadd (i2d a) r) i)
  | ScmNum.ratnum _ _, ScmNum.int b =>
    if b = 0 then some arg0 else ratnumAddSub arg0 arg1 false
  | ScmNum.ratnum _ _, ScmNum.ratnum _ _ => ratnumAddSub arg0 arg1 false
  | ScmNum.ratnum _ _, ScmNum.flonum y =>
    some (ScmNum.flonum (fadd (getDouble arg0) y))
  | ScmNum.ratnum _ _, ScmNum.compnum r i =>
    some (makeComplex (fadd (getDouble arg0) r) i)
  | ScmNum.flonum x, ScmNum.int b =>
    if b = 0 then some arg0 else some (ScmNum.flonum (fadd x (i2d b)))
  | ScmNum.flonum x, ScmNum.ratnum _ _ =>
    some (ScmNum.flonum (fadd x (getDouble arg1)))
  | ScmNum.flonum x, ScmNum.flonum y =>
    if dcmpE x (DD.fin false 0 0) = some 0 then some arg1
    else if dcmpE y (DD.fin false 0 0) = some 0 then some arg0
    else some (ScmNum.flonum (fadd x y))
  | ScmNum.flonum x, ScmNum.compnum r i =>
    if dcmpE x (DD.fin false 0 0) = some 0 then some arg1
    else some (makeComplex (fadd x r) i)
  | ScmNum.compnum r i, ScmNum.int b =>
    if b = 0 then some arg0 else some (makeComplex (fadd r (i2d b)) i)
  | ScmNum.compnum r i, ScmNum.ratnum _ _ =>
    some (makeComplex (fadd r (getDouble arg1)) i)
  | ScmNum.compnum r i, ScmNum.flonum y =>
    if dcmpE y (DD.fin false 0 0) = some 0 then some arg0
    else some (makeComplex (fadd r y) i)
  | ScmNum.compnum r0 i0, ScmNum.compnum r1 i1 =>
    some (makeComplex (fadd r0 r1) (fadd i0 i1))

/-- `Scm_Sub`; `none` only for the unreachable generic fallback.
The compnum results go through `Scm_MakeComplex` exactly where the
source calls it. -/
def scmSub (arg0 arg1 : ScmNum) : Option ScmNum :=
  match arg0, arg1 with
  | ScmNum.int a, ScmNum.int b => some (ScmNum.int (a - b))
  | ScmNum.int _, ScmNum.ratnum _ _ => ratnumAddSub arg0 arg1 true
  | ScmNum.int a, ScmNum.flonum y => some (ScmNum.flonum (fsub (i2d a) y))
  | ScmNum.int a, ScmNum.compnum r i =>
    some (makeComplex (fsub (i2d a) r) i.neg)
  | ScmNum.ratnum _ _, ScmNum.int b =>
    if b = 0 then some arg0 else ratnumAddSub arg0 arg1 true
  | ScmNum.ratnum _ _, ScmNum.ratnum _ _ => ratnumAddSub arg0 arg1 true
  | ScmNum.ratnum _ _, ScmNum.flonum y =>
    if dcmpE y (DD.fin false 0 0) = some 0 then some arg0
    else some (ScmNum.flonum (fsub (getDouble arg0) y))
  | ScmNum.ratnum _ _, ScmNum.compnum r i =>
    some (makeComplex (fsub (getDouble arg0) r) i.neg)
  | ScmNum.flonum x, ScmNum.int b =>
    if b = 0 then some arg0 else some (ScmNum.flonum (fsub x (i2d b)))
  | ScmNum.flonum x, ScmNum.ratnum _ _ =>
    some (ScmNum.flonum (fsub x (getDouble arg1)))
  | ScmNum.flonum x, ScmNum.flonum y =>
    if dcmpE y (DD.fin false 0 0) = some 0 then some arg0
    else some (ScmNum.flonum (fsub x y))
  | ScmNum.flonum x, ScmNum.compnum r i =>
    some (makeComplex (fsub x r) i.neg)
  | ScmNum.compnum r i, ScmNum.int b =>
    if b = 0 then some arg0 else some (makeComplex (fsub r (i2d b)) i)
  | ScmNum.compnum r i, ScmNum.ratnum _ _ =>
    some (makeComplex (fsub r (getDouble arg1)) i)
  | ScmNum.compnum r i, ScmNum.flonum y =>
    if dcmpE y (DD.fin false 0 0) = some 0 then some arg0
    else some (makeComplex (fsub r (getDouble arg1)) i)
  | ScmNum.compnum r0 i0, ScmNum.compnum r1 i1 =>
    some (makeComplex (fsub r0 r1) (fsub i0 i1))

/-- `Scm_Mul`; `none` only for the unreachable generic fallback. -/
def scmMul (arg0 arg1 : ScmNum) : Option ScmNum :=
  match arg0, arg1 with
  | ScmNum.int a, ScmNum.int b => some (ScmNum.int (a * b))
  | ScmNum.int a, ScmNum.ratnum _ _ =>
    if a = 0 then some arg0
    else if a = 1 then some arg1
    else ratnumMulDiv arg0 arg1 false
  | ScmNum.int a, ScmNum.flonum y =>
    if a = 0 then some arg0
    else if a = 1 then some arg1
    else some (ScmNum.flonum (fmul (i2d a) y))
  | ScmNum.int a, ScmNum.compnum r i =>
    if a = 0 then some arg0
    else if a = 1 then some arg1
    else some (makeComplex (fmul (i2d a) r) (fmul (i2d a) i))
  | ScmNum.ratnum _ _, ScmNum.int b =>
    if b = 0 then some arg1
    else if b = 1 then some arg0
    else ratnumMulDiv arg0 arg1 false
  | ScmNum.ratnum _ _, ScmNum.ratnum _ _ => ratnumMulDiv arg0 arg1 false
  | ScmNum.ratnum _ _, ScmNum.flonum y =>
    if dcmpE y (DD.fin false 0 0) = some 0 then some arg1
    else some (ScmNum.flonum (fmul (getDouble arg0) y))
  | ScmNum.ratnum _ _, ScmNum.compnum r i =>
    some (makeComplex (fmul (getDouble arg0) r) (fmul (getDouble arg0) i))
  | ScmNum.flonum x, ScmNum.int b =>
    -- "inexact number * exact zero makes exact zero"
    if b = 0 then some arg1
    else if b = 1 then some arg0
    else some (ScmNum.flonum (fmul x (i2d b)))
  | ScmNum.flonum x, ScmNum.ratnum _ _ =>
    some (ScmNum.flonum (fmul x (getDouble arg1)))
  | ScmNum.flonum x, ScmNum.flonum y =>
    if dcmpE y (i2d 1) = some 0 then some arg0
    else some (ScmNum.flonum (fmul x y))
  | ScmNum.flonum x, ScmNum.compnum r i =>
    some (makeComplex (fmul x r) (fmul x i))
  | ScmNum.compnum r i, ScmNum.int b =>
    if b = 0 then some arg1
    else if b = 1 then some arg0
    else some (makeComplex (fmul r (i2d b)) (fmul i (i2d b)))
  | ScmNum.compnum r i, ScmNum.ratnum _ _ =>
    some (makeComplex (fmul r (getDouble arg1)) (fmul i (getDouble arg1)))
  | ScmNum.compnum r i, ScmNum.flonum y =>
    if dcmpE y (i2d 1) = some 0 then some arg0
    else some (makeComplex (fmul r y) (fmul i y))
  | ScmNum.compnum r0 i0, ScmNum.compnum r1 i1 =>
    some (makeComplex (fsub (fmul r0 r1) (fmul i0 i1))
                      (fadd (fmul r0 i1) (fmul r1 i0)))

/-- The `ANORMAL` tail of `div_internal`: division of a real by a zero
divisor, decided by `Scm_Sign` of the numerator (`none` on a compnum
numerator, where `Scm_Sign` errors). -/
def divANormal (arg0 : ScmNum) : Option ScmNum := do
  let s ← scmSign arg0
  if s = 0 then return scmNaN
  else if s < 0 then return negInf
  else return posInf

/-- The `DO_COMPLEX1` tail of `div_internal` (real divided by compnum). -/
def divComplex1 (arg0 : ScmNum) (r1 i1 : DD) : ScmNum :=
  let d := fadd (fmul r1 r1) (fmul i1 i1)
  makeComplex (fdiv (fmul r1 (getDouble arg0)) d)
              (fdiv (fmul i1.neg (getDouble arg0)) d)

/-- The `COERCE_INEXACT` tail of `div_internal`: exact integer division,
coerced to flonum when the quotient is not whole. -/
def divCoerceInexact (arg0 arg1 : ScmNum) : Option ScmNum := do
  let (q, rem) ← scmQuotient arg0 arg1
  if rem = ScmNum.int 0 then return q
  else return ScmNum.flonum (fdiv (getDouble arg0) (getDouble arg1))

/-- `div_internal` (both `Scm_Div`, `autocoerce = false`, and
`Scm_DivInexact`, `autocoerce = true`).  `none` models `Scm_Error`
(only from `Scm_Sign` on a compnum numerator with a zero divisor). -/
def divInternal (arg0 arg1 : ScmNum) (autocoerce : Bool) : Option ScmNum :=
  match arg0, arg1 with
  | ScmNum.int a, ScmNum.int b =>
    if b = 0 then divANormal arg0
    else if a = 0 then some arg0
    else if b = 1 then some arg0
    else if autocoerce then
      -- the fixnum fast path `a % b == 0 ? a/b : (double)a/(double)b`
      -- and the bignum `COERCE_INEXACT` path are the same computation
      if tmod a b = 0 then some (ScmNum.int (tdiv a b))
      else some (ScmNum.flonum (fdiv (i2d a) (i2d b)))
    else some (makeRational a b)
  | ScmNum.int a, ScmNum.ratnum n d =>
    -- int/ratnum: MakeRational(Mul(arg0, denom), numer)
    some (makeRational (a * d) n)
  | ScmNum.int a, ScmNum.flonum y =>
    if dcmpE y (DD.fin false 0 0) = some 0 then divANormal arg0
    else if a = 0 then some arg0
    else some (ScmNum.flonum (fdiv (i2d a) y))
  | ScmNum.int _, ScmNum.compnum r i => some (divComplex1 arg0 r i)
  | ScmNum.ratnum n d, ScmNum.int b =>
    if b = 0 then divANormal arg0
    else if b = 1 then some arg0
    else some (makeRational n (d * b))
  | ScmNum.ratnum _ _, ScmNum.ratnum _ _ => ratnumMulDiv arg0 arg1 true
  | ScmNum.ratnum _ _, ScmNum.flonum y =>
    if dcmpE y (DD.fin false 0 0) = some 0 then divANormal arg0
    else some (ScmNum.flonum (fdiv (getDouble arg0) y))
  | ScmNum.ratnum _ _, ScmNum.compnum r i => some (divComplex1 arg0 r i)
  | ScmNum.flonum x, ScmNum.int b =>
    if b = 0 then divANormal arg0
    else if b = 1 then some arg0
    else some (ScmNum.flonum (fdiv x (i2d b)))
  | ScmNum.flonum x, ScmNum.ratnum _ _ =>
    some (ScmNum.flonum (fdiv x (getDouble arg1)))
  | ScmNum.flonum x, ScmNum.flonum y =>
    if dcmpE y (DD.fin false 0 0) = some 0 then divANormal arg0
    else some (ScmNum.flonum (fdiv x y))
  | ScmNum.flonum _, ScmNum.compnum r i => some (divComplex1 arg0 r i)
  | ScmNum.compnum r i, ScmNum.int b =>
    if b = 0 then divANormal arg0
    else if b = 1 then some arg0
    else some (makeComplex (fdiv r (i2d b)) (fdiv i (i2d b)))
  | ScmNum.compnum r i, ScmNum.ratnum _ _ =>
    some (makeComplex (fdiv r (getDouble arg1)) (fdiv i (getDouble arg1)))
  | ScmNum.compnum r i, ScmNum.flonum y =>
    if dcmpE y (DD.fin false 0 0) = some 0 then divANormal arg0
    else some (makeComplex (fdiv r y) (fdiv i y))
  | ScmNum.compnum r0 i0, ScmNum.compnum r1 i1 =>
    let d := fadd (fmul r1 r1) (fmul i1 i1)
    some (makeComplex (fdiv (fadd (fmul r0 r1) (fmul i0 i1)) d)
                      (fdiv (fsub (fmul i0 r1) (fmul r0 i1)) d))

/-- `Scm_Div`. -/
def scmDiv (x y : ScmNum) : Option ScmNum := divInternal x y false

/-- `Scm_DivInexact`. -/
def scmDivInexact (x y : ScmNum) : Option ScmNum := divInternal x y true


/-! ## Comparison -/

/-- `Scm_NumCmp` for a non-ratnum first argument (the first three
dispatch groups).  Fixnum–fixnum comparison is the sign of the machine
`long` difference, which cannot overflow for 62-bit fixnums; every path
through `Scm_BignumCmp` (exact) is written as the sign of the exact
difference; `Scm_MakeBignumFromDouble` truncates toward zero
(`dtruncToInt`).  The fixnum-vs-flonum and fixnum-vs-ratnum
comparisons are the sign of the binary64 difference of the converted
operands, exactly as the source computes them. -/
def numCmpL1 (x y : ScmNum) : Option ℤ :=
  match x, y with
  | ScmNum.int a, ScmNum.int b => some (Int.sign (a - b))
  | ScmNum.int a, ScmNum.flonum yd =>
    if isSmall a then some (dcmpSign (fsub (i2d a) yd))
    else some (Int.sign (a - dtruncToInt yd))
  | ScmNum.int a, ScmNum.ratnum n d =>
    if isSmall a then
      -- "numerical error doesn't matter for the range of fixnum"
      some (dcmpSign (fsub (i2d a) (getDouble (ScmNum.ratnum n d))))
    else
      -- bignum vs ratnum: "we can't coerce to flonum, for it may lose
      -- precision": Scm_NumCmp(Scm_Mul(arg0, d1), numer)
      some (Int.sign (a * d - n))
  | ScmNum.flonum xd, ScmNum.int b =>
    if isSmall b then some (dcmpSign (fsub xd (i2d b)))
    else some (Int.sign (dtruncToInt xd - b))
  | ScmNum.flonum xd, ScmNum.flonum yd => some (dcmpSign (fsub xd yd))
  | ScmNum.flonum xd, ScmNum.ratnum n d =>
    some (dcmpSign (fsub xd (getDouble (ScmNum.ratnum n d))))
  | _, _ => none

/-- `Scm_NumCmp` (`none` models `Scm_Error "real number required"`). -/
def numCmp (x y : ScmNum) : Option ℤ :=
  match x, y with
  | ScmNum.ratnum n0 d0, ScmNum.ratnum n1 d1 =>
    let d := Int.sign (d0 - d1)
    if d = 0 then some (Int.sign (n0 - n1))
    else
      let n := Int.sign (n0 - n1)
      if d > 0 ∧ n ≤ 0 then some (-1)
      else if d < 0 ∧ n ≥ 0 then some 1
      else some (Int.sign (n0 * d1 - n1 * d0))
  | ScmNum.ratnum _ _, ScmNum.int _ => (numCmpL1 y x).map (fun v => -v)
  | ScmNum.ratnum _ _, ScmNum.flonum _ => (numCmpL1 y x).map (fun v => -v)
  | _, _ => numCmpL1 x y

/-- `Scm_NumEq`. -/
def numEq (x y : ScmNum) : Bool :=
  match x, y with
  | ScmNum.compnum r0 i0, ScmNum.compnum r1 i1 =>
    dcmpE r0 r1 = some 0 ∧ dcmpE i0 i1 = some 0
  | ScmNum.compnum _ _, _ => false
  | _, ScmNum.compnum _ _ => false
  | _, _ => numCmp x y = some 0

/-! ## Absolute value, shift, reciprocal, rounding, expt -/

/-- `Scm_Abs` (`none` for the compnum case, whose `sqrt` lies outside the
embedded real-arithmetic fragment; no claim touches it). -/
def scmAbs : ScmNum → Option ScmNum
  | ScmNum.int a => some (ScmNum.int (if a < 0 then -a else a))
  | ScmNum.flonum d =>
    some (ScmNum.flonum (if dcmpSign d = -1 then d.neg else d))
  | ScmNum.ratnum n d =>
    some (if Int.sign n < 0 then makeRational (-n) d else ScmNum.ratnum n d)
  | ScmNum.compnum _ _ => none

/-- `Scm_Ash`.  For `cnt ≥ 0` every path computes `x * 2^cnt` (the fixnum
fast path only when no overflow, else promotion — same value); for
`cnt < 0` the fixnum path `~((~ix) >> k)` for negatives and `ix >> k`
otherwise, the `cnt ≤ -wordbits` saturation and `Scm_BignumAsh` all
compute the arithmetic shift, i.e. division by `2^k` rounding toward
`-∞` (`Int.ediv` with a positive power divisor). -/
def scmAsh (x : ScmNum) (cnt : ℤ) : Option ScmNum :=
  match x with
  | ScmNum.int a =>
    if 0 ≤ cnt then some (ScmNum.int (a * 2 ^ cnt.toNat))
    else some (ScmNum.int (a / 2 ^ (-cnt).toNat))
  | _ => none

/-- `Scm_Reciprocal` (the generic fallback is unreachable). -/
def scmReciprocal : ScmNum → ScmNum
  | ScmNum.int a => makeRational 1 a
  | ScmNum.flonum v => ScmNum.flonum (fdiv (i2d 1) v)
  | ScmNum.ratnum n d => makeRational d n
  | ScmNum.compnum r i =>
    let d := fadd (fmul r r) (fmul i i)
    makeComplex (fdiv r d) (fdiv i.neg d)

/-- `Scm_ExactToInexact` (error cases unreachable on numbers). -/
def exactToInexact : ScmNum → ScmNum
  | ScmNum.int a => ScmNum.flonum (i2d a)
  | ScmNum.ratnum n d => ScmNum.flonum (getDouble (ScmNum.ratnum n d))
  | x => x

/-- Rounding modes of `Scm_Round`. -/
inductive RoundMode where
  | floorM | ceilM | truncM | roundM
deriving DecidableEq, Repr

/-- `Scm_Round` (`none` models `Scm_Error`, e.g. on a compnum). -/
def scmRound (num : ScmNum) (mode : RoundMode) : Option ScmNum :=
  match num with
  | ScmNum.int _ => some num
  | ScmNum.ratnum n d => do
    let (quot, rem) ← scmQuotient (ScmNum.int n) (ScmNum.int d)
    match quot, rem with
    | ScmNum.int q, ScmNum.int r =>
      if r = 0 then return ScmNum.int q
      else
        let sgn ← scmSign num
        let offset : ℤ ←
          match mode with
          | RoundMode.floorM => pure (if sgn < 0 then -1 else 0)
          | RoundMode.ceilM => pure (if sgn < 0 then 0 else 1)
          | RoundMode.truncM => pure 0
          | RoundMode.roundM => do
            let rem2 := 2 * (if r < 0 then -r else r)
            let cmp := Int.sign (d - rem2)
            if cmp > 0 then pure 0
            else if cmp < 0 then pure (if sgn < 0 then -1 else 1)
            else if oddP (ScmNum.int q) then pure (if sgn < 0 then -1 else 1)
            else pure 0
        return ScmNum.int (q + offset)
    | _, _ => none
  | ScmNum.flonum v =>
    some (ScmNum.flonum
      (match mode with
       | RoundMode.floorM => dfloor v
       | RoundMode.ceilM => dceil v
       | RoundMode.truncM => dtrunc v
       | RoundMode.roundM => droundeven v))
  | ScmNum.compnum _ _ => none

/-- The general square-and-multiply loop of `exact_expt`, fuel-bounded
(the exponent is a fixnum, so at most 62 doublings). -/
def exactExptLoop : ℕ → ScmNum → ℕ → ScmNum → ScmNum
  | 0, _, _, r => r
  | _ + 1, _, 0, r => r
  | _ + 1, x, 1, r => (scmMul r x).getD r
  | fuel + 1, x, iy, r =>
    let r' := if iy % 2 = 1 then (scmMul r x).getD r else r
    exactExptLoop fuel ((scmMul x x).getD x) (iy / 2) r'

/-- `exact_expt` (`x` exact, `y` an exact integer; `none` models the
"exponent too big" error for a bignum exponent).  The `10^iy` table
path, the `2^iy` shift path and the general loop all compute the exact
power.  The `Option.getD` discharges of `scmMul` never fire (its generic
fallback is unreachable). -/
def exactExpt (x y : ScmNum) : Option ScmNum := do
  let sign ← scmSign y
  if sign = 0 then return ScmNum.int 1
  else if x = ScmNum.int 1 then return ScmNum.int 1
  else if x = ScmNum.int (-1) then
    return (if oddP y then ScmNum.int (-1) else ScmNum.int 1)
  else
    match y with
    | ScmNum.int iy =>
      if ¬ isSmall iy then none
      else
        let r :=
          if x = ScmNum.int 10 ∧ 0 < iy ∧ iy < 341 then ScmNum.int (10 ^ iy.toNat)
          else if x = ScmNum.int 2 ∧ 0 < iy then ScmNum.int (2 ^ iy.toNat)
          else exactExptLoop 64 x iy.natAbs (ScmNum.int 1)
        return (if sign < 0 then scmReciprocal r else r)
    | _ => none

/-! ## The flonum printer (`double_print`, Burger & Dybvig) -/

/-- `estCond f e est` decides `(f·2^e)^10 ≤ 10^(10·est+1)`, i.e.
`log10(f·2^e) - 0.1 ≤ est`, by exact integer arithmetic. -/
def estCond (f : ℕ) (e : ℤ) (est : ℤ) : Bool :=
  let t : ℤ := 10 * est + 1
  decide (f ^ 10 * 2 ^ (10 * e).toNat * 10 ^ (-t).toNat ≤
          10 ^ t.toNat * 2 ^ (-(10 * e)).toNat)

/-- Linear upward search for the least value satisfying `cond`. -/
def estSearch (cond : ℤ → Bool) : ℕ → ℤ → ℤ
  | 0, cur => cur
  | fuel + 1, cur => if cond cur then cur else estSearch cond fuel (cur + 1)

/-- The scale estimate `est = (int)ceil(log10(val) - 0.1)` of
`double_print`, for `val = f * 2^e`, `f ≥ 1`.  The C code computes it
with the C library's `log10` on doubles; since `log10(val) - 0.1` is
never within the library's error of an integer for the values evaluated
in this development, the exact real-valued ceiling embedded here (least
`est` with `val^10 ≤ 10^(10·est+1)`; equality cannot occur for dyadic
`val`) coincides with it.  The start of the search is a coarse lower
bound from the bit length, well within the fuel. -/
def est10 (f : ℕ) (e : ℤ) : ℤ :=
  let B : ℤ := ((bitlen f : ℤ) - 1) + e
  let g : ℤ := (B * 30103) / 100000 - 1
  estSearch (estCond f e) 24 (g - 3)

/-- The digit-generation loop of `double_print`.  State: `r`, `s`, `mm`
(the paper's `R`, `S`, `m⁻`; `m⁺` is `2·m⁻` iff `mp2`), the parity flag
`round` (`!Scm_OddP(f)`), the decimal-point position `point` and the
digit counter `digs`.  Returns the emitted characters (with the point
inserted after digit `point`) and the value of `digs` at loop exit.
The source loop is bounded by the output buffer (`buflen > 5`, never
reached for `FLT_BUF = 50`); the fuel plays that role here and exceeds
every reachable digit count. -/
def dpLoop : ℕ → ℕ → ℕ → ℕ → Bool → Bool → ℤ → ℤ → (List Char × ℤ)
  | 0, _, _, _, _, _, _, digs => ([], digs)
  | fuel + 1, r, s, mm, mp2, round, point, digs =>
    let r10 := r * 10
    let q := r10 / s
    let r' := r10 % s
    let mm' := mm * 10
    let mp := if mp2 then 2 * mm' else mm'
    let tc1 : Bool := if round then decide (r' ≤ mm') else decide (r' < mm')
    let tc2 : Bool := if round then decide (s ≤ r' + mp) else decide (s < r' + mp)
    let dq : Char := Char.ofNat (48 + q)
    let dq1 : Char := Char.ofNat (49 + q)
    if ¬ tc1 then
      if ¬ tc2 then
        let next := dpLoop fuel r' s mm' mp2 round point (digs + 1)
        (if digs = point then dq :: '.' :: next.1 else dq :: next.1, next.2)
      else ([dq1], digs)
    else
      if ¬ tc2 then ([dq], digs)
      else
        let tc3 := Int.sign ((2 * r' : ℤ) - (s : ℤ))
        if (round ∧ tc3 ≤ 0) ∨ (¬ round ∧ tc3 < 0) then ([dq], digs)
        else ([dq1], digs)

/-- `double_print` (radix-10 flonum printing, Burger & Dybvig).  The
special cases come first, exactly as in the source: `val == 0.0` is true
for both `+0.0` and `-0.0` (so both print without a minus sign),
infinities print as the provisional `#i1/0` notation and NaN as
`#<nan>`.  `DD` already carries the `Scm_DecodeFlonum` decomposition. -/
def double_print (val : DD) (plusSign : Bool) : String :=
  match val with
  | DD.inf b => if b then "#i-1/0" else if plusSign then "#i+1/0" else "#i1/0"
  | DD.nan => "#<nan>"
  | DD.fin neg f exp =>
    if f = 0 then (if plusSign then "+0.0" else "0.0")
    else
      let signChars : List Char := if neg then ['-'] else if plusSign then ['+'] else []
      let round : Bool := ¬ (f % 2 = 1)
      let init : ℕ × ℕ × Bool × ℕ :=
        if 0 ≤ exp then
          if f ≠ 2 ^ 52 then (f * 2 ^ (exp + 1).toNat, 2, false, 2 ^ exp.toNat)
          else (f * 2 ^ (exp + 2).toNat, 4, true, 2 ^ exp.toNat)
        else
          if exp = -1023 ∨ f ≠ 2 ^ 52 then (2 * f, 2 ^ (-exp + 1).toNat, false, 1)
          else (4 * f, 2 ^ (-exp + 2).toNat, true, 1)
      let r0 := init.1
      let s0 := init.2.1
      let mp2 := init.2.2.1
      let mm0 := init.2.2.2
      let est0 := est10 f exp
      let r1 := if 0 ≤ est0 then r0 else r0 * 10 ^ (-est0).toNat
      let s1 := if 0 ≤ est0 then s0 * 10 ^ est0.toNat else s0
      let mm1 := if 0 ≤ est0 then mm0 else mm0 * 10 ^ (-est0).toNat
      let fixup : Bool :=
        if s1 ≤ r1 then true
        else
          let mp := if mp2 then 2 * mm1 else mm1
          if round then decide (s1 ≤ r1 + mp) else decide (s1 < r1 + mp)
      let s2 := if fixup then s1 * 10 else s1
      let est1 := if fixup then est0 + 1 else est0
      let point : ℤ := if est1 < 10 ∧ est1 > -3 then est1 else 1
      let est2 : ℤ := if est1 < 10 ∧ est1 > -3 then 1 else est1
      let lead : List Char :=
        if point ≤ 0 then '0' :: '.' :: List.replicate (-point).toNat '0' else []
      let gen := dpLoop 40 r1 s2 mm1 mp2 round point 1
      let trailing : List Char :=
        if gen.2 ≤ point then List.replicate (point - gen.2).toNat '0' ++ ['.', '0'] else []
      let est3 := est2 - 1
      let expPart : List Char := if est3 ≠ 0 then 'e' :: (toString est3).toList else []
      String.mk (signChars ++ lead ++ gen.1 ++ trailing ++ expPart)

/-- Digit character for `natToRadix` (the printing direction of the
reader's `"0123456789abcdefghijklmnopqrstuvwxyz"` table; `%lX` style
upper case on request). -/
def radixDigitChar (useUpper : Bool) (v : ℕ) : Char :=
  if v < 10 then Char.ofNat (48 + v)
  else Char.ofNat ((if useUpper then 65 else 97) + v - 10)

def natToRadixAux : ℕ → ℕ → ℕ → Bool → List Char → List Char
  | 0, _, _, _, acc => acc
  | _ + 1, 0, _, _, acc => acc
  | fuel + 1, n, radix, u, acc =>
    natToRadixAux fuel (n / radix) radix u (radixDigitChar u (n % radix) :: acc)

/-- Magnitude of an integer in the given radix (`snprintf "%ld"/"%lx"/
"%lo"` for fixnums, `Scm_BignumToString` — external, modelled from the
spec — for bignums and other radices; all produce the standard digit
string). -/
def natToRadix (n radix : ℕ) (u : Bool) : List Char :=
  if n = 0 then ['0'] else natToRadixAux 256 n radix u []

/-- `Scm_NumberToString`. -/
def numberToString (obj : ScmNum) (radix : ℕ) (useUpper : Bool) : String :=
  match obj with
  | ScmNum.int a =>
    String.mk ((if a < 0 then ['-'] else []) ++ natToRadix a.natAbs radix useUpper)
  | ScmNum.flonum d => double_print d false
  | ScmNum.ratnum n d =>
    String.mk ((if n < 0 then ['-'] else []) ++ natToRadix n.natAbs radix useUpper
      ++ '/' :: (if d < 0 then ['-'] else []) ++ natToRadix d.natAbs radix useUpper)
  | ScmNum.compnum r i =>
    double_print r false ++ double_print i true ++ "i"

/-! ## The number reader -/

/-- Exactness flag of `struct numread_packet` (`NOEXACT/EXACT/INEXACT`). -/
inductive Exactness where
  | noexact | exact | inexact
deriving DecidableEq, Repr

/-- `struct numread_packet` (the buffer/length live in the `List Char`
argument threading). -/
structure NCtx where
  radix : ℕ
  exactness : Exactness
  padread : Bool
  strict : Bool
deriving DecidableEq, Repr

/-- Index of a (lowercased) character in the digit table
`"0123456789abcdefghijklmnopqrstuvwxyz"`. -/
def tabIndex (c : Char) : Option ℕ :=
  if '0' ≤ c ∧ c ≤ '9' then some (c.toNat - 48)
  else if 'a' ≤ c ∧ c ≤ 'z' then some (c.toNat - 97 + 10)
  else none

/-- The digit search of `read_uint`: the table lookup succeeds exactly
when the character is one of the first `radix` table entries. -/
def digval (radix : ℕ) (c : Char) : Option ℕ :=
  match tabIndex c with
  | some v => if v < radix then some v else none
  | none => none

/-- The accumulation loop of `read_uint`.  The `value_int`/`value_big`
split with `longlimit`/`longdigs`/`bigdig` chunking accumulates exactly
the radix-positional value of the digits read, and is written as the
direct fold (see the header comment); `#` padding contributes digit `0`,
sets `padread` and downgrades `NOEXACT` to `INEXACT`, after which only
further `#` are accepted. -/
def ruLoop : List Char → NCtx → Bool → ℤ → (ℤ × List Char × NCtx)
  | [], ctx, _, acc => (acc, [], ctx)
  | c :: rest, ctx, digread, acc =>
    let cl := c.toLower
    if ctx.padread then
      if cl = '#' then ruLoop rest ctx digread (acc * ctx.radix)
      else (acc, c :: rest, ctx)
    else if digread ∧ cl = '#' then
      let ex' := if ctx.exactness = Exactness.noexact then Exactness.inexact
                 else ctx.exactness
      let ctx' := { ctx with padread := true, exactness := ex' }
      ruLoop rest ctx' digread (acc * ctx.radix)
    else
      match digval ctx.radix cl with
      | some v => ruLoop rest ctx true (acc * ctx.radix + v)
      | none => (acc, c :: rest, ctx)

/-- `read_uint`: optional initial value (used when continuing a decimal
after the point), leading-zero skip, then the digit loop.  Returns the
accumulated integer, the unconsumed rest and the updated context. -/
def read_uint (s : List Char) (ctx : NCtx) (initval : Option ℤ) : ℤ × List Char × NCtx :=
  match initval with
  | some v => ruLoop s ctx true v
  | none =>
    match s with
    | '0' :: _ => ruLoop (s.dropWhile (fun c => c = '0')) ctx true 0
    | _ => ruLoop s ctx false 0

/-- The exponent-digit loop of `read_real`: accumulates while the
running value stays below `MAX_EXPONENT = 324`; once it reaches `324`
the overflow flag is set and further digits are consumed unaccumulated. -/
def expLoop : List Char → ℤ → Bool → (ℤ × Bool × List Char)
  | [], exponent, ovf => (exponent, ovf, [])
  | c :: rest, exponent, ovf =>
    if c.isDigit then
      if ovf then expLoop rest exponent ovf
      else
        let e' := exponent * 10 + ((c.toNat : ℤ) - 48)
        expLoop rest e' (decide (324 ≤ e'))
    else (exponent, ovf, c :: rest)

/-- The `dpow10` table of `raise_pow10` plus the `1.0e24` literal: the C
decimal floating constants, i.e. the correctly rounded doubles of
`10^n` (exact for `n ≤ 22`). -/
def dpow10Tbl (n : ℕ) : DD := i2d (10 ^ n)

/-- `raise_pow10`: repeated multiplication/division by `1.0e24` until
the exponent is within the table, then one table step.  Fuel-bounded
(the while loop runs `|n|/24` times). -/
def raisePow10 : ℕ → DD → ℤ → DD
  | 0, x, _ => x
  | fuel + 1, x, n =>
    if 0 ≤ n then
      if 23 < n then raisePow10 fuel (fmul x (dpow10Tbl 24)) (n - 24)
      else fmul x (dpow10Tbl n.toNat)
    else
      if n < -23 then raisePow10 fuel (fdiv x (dpow10Tbl 24)) (n + 24)
      else fdiv x (dpow10Tbl (-n).toNat)

/-- `x` and `y` of `algorithmR` (scaled integer representatives of
`f·10^e` and `m·2^k`, chosen by the signs of `k` and `e`). -/
def algRxy (f e m k : ℤ) : ℤ × ℤ :=
  if 0 ≤ k then
    if 0 ≤ e then (f * 10 ^ e.toNat, m * 2 ^ k.toNat)
    else (f, m * 10 ^ (-e).toNat * 2 ^ k.toNat)
  else
    if 0 ≤ e then (f * 10 ^ e.toNat * 2 ^ (-k).toNat, m)
    else (f * 2 ^ (-k).toNat, m * 10 ^ (-e).toNat)

/-- The refinement loop of `algorithmR`.  One iteration: compare
`d2 = 2·m·|x-y|` with `y`; return `ldexp(m, k)` when the approximation
is proven correctly rounded (with the boundary and tie cases of the
source), otherwise step `m` by one ulp toward the target, renormalizing
across binade boundaries, and update `x`/`y` — `x` is recomputed
whenever `k` differs from the `kprev` recorded at the last full
recomputation, and both are recomputed from scratch when `k` changes
sign (the `retry` label).  Fuel-bounded; each step moves `m` by one, so
the fuel exceeds the error (in ulps) of every starting approximation
reached from `read_real`. -/
def algLoop (f e : ℤ) : ℕ → ℤ → ℤ → ℤ → ℤ → ℤ → DD
  | 0, m, k, _, _, _ => roundDyadic m k
  | fuel + 1, m, k, kprev, x, y =>
    let sign_d := Int.sign (x - y)
    let abs_d := if sign_d > 0 then x - y else y - x
    let d2 := 2 * (m * abs_d)
    let c := Int.sign (d2 - y)
    if c = -1 ∧ ¬ (m = 2 ^ 52 ∧ sign_d < 0 ∧ 2 * d2 > y) then roundDyadic m k
    else if c = 0 ∧ m % 2 = 0 ∧ ¬ (m = 2 ^ 52 ∧ sign_d < 0) then roundDyadic m k
    else
      let down : Bool :=
        if c = -1 then true
        else if c = 0 then (if m % 2 = 0 then true else decide (sign_d < 0))
        else decide (sign_d < 0)
      let mk : ℤ × ℤ :=
        if down then
          let m1 := m - 1
          if k > -1074 ∧ m1 < 2 ^ 52 then (2 * m1, k - 1) else (m1, k)
        else
          let m1 := m + 1
          if 2 ^ 53 ≤ m1 then (m1 / 2, k + 1) else (m1, k)
      let m' := mk.1
      let k' := mk.2
      if 0 ≤ kprev then
        if 0 ≤ k' then
          let y' := if 0 ≤ e then m' * 2 ^ k'.toNat else m' * 10 ^ (-e).toNat * 2 ^ k'.toNat
          algLoop f e fuel m' k' kprev x y'
        else
          let xy := algRxy f e m' k'
          algLoop f e fuel m' k' k' xy.1 xy.2
      else
        if k' < 0 then
          let x' := if k' ≠ kprev then
              (if 0 ≤ e then f * 10 ^ e.toNat * 2 ^ (-k').toNat else f * 2 ^ (-k').toNat)
            else x
          let y' := if 0 ≤ e then m' else m' * 10 ^ (-e).toNat
          algLoop f e fuel m' k' kprev x' y'
        else
          let xy := algRxy f e m' k'
          algLoop f e fuel m' k' k' xy.1 xy.2

/-- `algorithmR` (Clinger): refine the approximation `z` of `f·10^e` to
the correctly rounded double.  `z` is finite and positive whenever the
source calls this (guarded by `SCM_IS_INF` and `realnum > 0.0`). -/
def algorithmR (f e : ℤ) (z : DD) : DD :=
  match z with
  | DD.fin _ mz kz =>
    let xy := algRxy f e (mz : ℤ) kz
    algLoop f e 4096 (mz : ℤ) kz kz xy.1 xy.2
  | _ => z

/-- Result of `read_real` / `read_number`: a value, `SCM_FALSE`, or an
error raised through `Scm_Error` (strict mode). -/
inductive ROut where
  | ok : ScmNum → ROut
  | rfalse : ROut
  | rerror : ROut
deriving DecidableEq, Repr

/-- `numread_error`: raises in strict mode, returns `SCM_FALSE` otherwise. -/
def numreadError (ctx : NCtx) : ROut :=
  if ctx.strict then ROut.rerror else ROut.rfalse

/-- Exponent-marker characters (`strchr("eEsSfFdDlL", c)`). -/
def expMarker (c : Char) : Bool :=
  c = 'e' ∨ c = 'E' ∨ c = 's' ∨ c = 'S' ∨ c = 'f' ∨ c = 'F' ∨
  c = 'd' ∨ c = 'D' ∨ c = 'l' ∨ c = 'L'

/-- The composition stage of `read_real`, after the optional exponent
has been read: the `exp_overflow` branch, then the exact and inexact
paths.  `expMinus` is the `exp_minusp` flag (the source branches on the
flag, not on the sign of the accumulated value). -/
def readCompose (minusp : Bool) (fraction : ℤ) (fracdigs : ℕ) (exponent : ℤ)
    (expMinus : Bool) (ovf : Bool) (rest : List Char) (ctx : NCtx) :
    ROut × List Char × NCtx :=
  if ovf then
    if ctx.exactness = Exactness.exact then (numreadError ctx, rest, ctx)
    else if expMinus then (ROut.ok (ScmNum.flonum (DD.fin false 0 0)), rest, ctx)
    else if minusp then (ROut.ok negInf, rest, ctx)
    else (ROut.ok posInf, rest, ctx)
  else if ctx.exactness = Exactness.exact then
    let p := (exactExpt (ScmNum.int 10) (ScmNum.int (exponent - fracdigs))).getD
      (ScmNum.int 0)
    let e := (scmMul (ScmNum.int fraction) p).getD (ScmNum.int 0)
    (ROut.ok (if minusp then scmNegate e else e), rest, ctx)
  else
    let realnum0 := getDouble (ScmNum.int fraction)
    let realnum1 := raisePow10 4096 realnum0 (exponent - fracdigs)
    match realnum1 with
    | DD.inf _ => (ROut.ok (if minusp then negInf else posInf), rest, ctx)
    | _ =>
      let e10 := exponent - fracdigs
      let realnum2 :=
        if dcmpSign realnum1 = 1 ∧
            (fraction > 2 ^ 52 ∨ e10 > 23 ∨ e10 < -23) then
          algorithmR fraction e10 realnum1
        else realnum1
      (ROut.ok (ScmNum.flonum (if minusp then realnum2.neg else realnum2)), rest, ctx)

/-- The fraction-and-exponent tail of `read_real`: reads the optional
fractional part (radix 10 only; `intpart = none` encodes the
`SCM_FALSE` marker for a leading-point decimal), rejects a bare `"."`,
reads the optional exponent suffix, and composes. -/
def readRealTail (intpart : Option ℤ) (minusp : Bool) (s : List Char) (ctx : NCtx) :
    ROut × List Char × NCtx := Id.run do
  -- fractional part
  let mut fraction : ℤ := intpart.getD 0
  let mut fracdigs : ℕ := 0
  let mut s1 : List Char := s
  let mut ctx1 : NCtx := ctx
  if s.head? = some '.' then
    if ctx.radix ≠ 10 then
      return (numreadError ctx, s, ctx)
    let t := s.tail
    let ru := read_uint t ctx intpart
    fraction := ru.1
    fracdigs := t.length - ru.2.1.length
    s1 := ru.2.1
    ctx1 := ru.2.2
  if intpart = none ∧ fracdigs = 0 then
    return (ROut.rfalse, s1, ctx1)
  -- exponent
  match s1 with
  | c :: s2 =>
    if expMarker c then
      match s2 with
      | [] => return (ROut.rfalse, s2, ctx1)
      | c2 :: s3 =>
        let expMinus := c2 = '-'
        let s4 := if c2 = '-' ∨ c2 = '+' then s3 else c2 :: s3
        if (c2 = '-' ∨ c2 = '+') ∧ s3 = [] then
          return (ROut.rfalse, s3, ctx1)
        let el := expLoop s4 0 false
        let exponent := if expMinus then -el.1 else el.1
        return readCompose minusp fraction fracdigs exponent expMinus el.2.1 el.2.2 ctx1
    else
      return readCompose minusp fraction fracdigs 0 false false s1 ctx1
  | [] => return readCompose minusp fraction fracdigs 0 false false s1 ctx1

/-- `read_real`. -/
def read_real (s0 : List Char) (ctx0 : NCtx) : ROut × List Char × NCtx := Id.run do
  let minusp : Bool := s0.head? = some '-'
  let s1 := if s0.head? = some '-' ∨ s0.head? = some '+' then s0.tail else s0
  if s1 = [] then
    return (ROut.rfalse, s1, ctx0)
  if s1.head? ≠ some '.' then
    let ru := read_uint s1 ctx0 none
    let intpart := ru.1
    let s2 := ru.2.1
    let ctx1 := ru.2.2
    if s2 = [] then
      let v : ScmNum := ScmNum.int (if minusp then -intpart else intpart)
      if ctx1.exactness = Exactness.inexact then
        return (ROut.ok (exactToInexact v), s2, ctx1)
      else
        return (ROut.ok v, s2, ctx1)
    if s2.head? = some '/' then
      if s2.length ≤ 1 then
        return (ROut.rfalse, s2, ctx1)
      let s3 := s2.tail
      let lensave := s3.length
      let rd := read_uint s3 ctx1 none
      let denom := rd.1
      let s4 := rd.2.1
      let ctx2 := rd.2.2
      if denom = 0 then
        if s4.length < lensave then
          if ctx2.exactness = Exactness.exact then
            return (numreadError ctx2, s4, ctx2)
          else if intpart = 0 then
            return (ROut.ok scmNaN, s4, ctx2)
          else if minusp then
            return (ROut.ok negInf, s4, ctx2)
          else
            return (ROut.ok posInf, s4, ctx2)
        else
          return (ROut.rfalse, s4, ctx2)
      let v : ℤ := if minusp then -intpart else intpart
      if ctx2.exactness = Exactness.inexact then
        let q := (scmDiv (ScmNum.int v) (ScmNum.int denom)).getD (ScmNum.int 0)
        return (ROut.ok (exactToInexact q), s4, ctx2)
      else
        return (ROut.ok (makeRational v denom), s4, ctx2)
    return readRealTail (some intpart) minusp s2 ctx1
  else
    return readRealTail none minusp s1 ctx0

/-- Result of `read_number` / `Scm_StringToNumber`.  `unmodeled` marks
the polar-complex branch (`Scm_MakeComplexPolar` needs `cos`/`sin`,
outside the embedded real-arithmetic fragment); no input evaluated in
this development reaches it. -/
inductive NumOut where
  | ok : ScmNum → NumOut
  | sfalse : NumOut
  | serror : NumOut
  | unmodeled : NumOut
deriving DecidableEq, Repr

/-- The prefix loop of `read_number` (`#b #o #d #x #e #i`, each kind at
most once; any other `#`-sequence is a parse failure). -/
def prefixLoop : List Char → NCtx → Bool → Bool → Option (List Char × NCtx)
  | '#' :: c :: rest, ctx, radixSeen, exactSeen =>
    if c = 'x' ∨ c = 'X' then
      if radixSeen then none else prefixLoop rest { ctx with radix := 16 } true exactSeen
    else if c = 'o' ∨ c = 'O' then
      if radixSeen then none else prefixLoop rest { ctx with radix := 8 } true exactSeen
    else if c = 'b' ∨ c = 'B' then
      if radixSeen then none else prefixLoop rest { ctx with radix := 2 } true exactSeen
    else if c = 'd' ∨ c = 'D' then
      if radixSeen then none else prefixLoop rest { ctx with radix := 10 } true exactSeen
    else if c = 'e' ∨ c = 'E' then
      if exactSeen then none
      else prefixLoop rest { ctx with exactness := Exactness.exact } radixSeen true
    else if c = 'i' ∨ c = 'I' then
      if exactSeen then none
      else prefixLoop rest { ctx with exactness := Exactness.inexact } radixSeen true
    else none
  | '#' :: [], _, _, _ => none
  | s, ctx, _, _ => some (s, ctx)

/-- The complex-continuation tail of `read_number`, after the real part
has been read and input remains. -/
def readNumberTail (realpart : ScmNum) (rest : List Char) (ctx : NCtx)
    (signSeen : Bool) : NumOut := Id.run do
  match rest with
  | '@' :: rest1 =>
    if rest1 = [] then
      return NumOut.sfalse
    let rr := read_real rest1 ctx
    match rr.1 with
    | ROut.rerror => return NumOut.serror
    | ROut.rfalse => return NumOut.sfalse
    | ROut.ok _ =>
      if rr.2.1 ≠ [] then return NumOut.sfalse
      if rr.2.2.exactness = Exactness.exact then
        return (if rr.2.2.strict then NumOut.serror else NumOut.sfalse)
      return NumOut.unmodeled
  | c :: rest1 =>
    if c = '+' ∨ c = '-' then
      if rest1 = [] then
        return NumOut.sfalse
      if rest1.length = 1 ∧ rest1.head? = some 'i' then
        return NumOut.ok (makeComplex (getDouble realpart)
          (if c = '+' then i2d 1 else (i2d 1).neg))
      let rr := read_real rest ctx
      match rr.1 with
      | ROut.rerror => return NumOut.serror
      | ROut.rfalse => return NumOut.sfalse
      | ROut.ok imagpart =>
        if rr.2.1.length ≠ 1 ∨ rr.2.1.head? ≠ some 'i' then
          return NumOut.sfalse
        if rr.2.2.exactness = Exactness.exact then
          return (if rr.2.2.strict then NumOut.serror else NumOut.sfalse)
        if (scmSign imagpart).getD 1 = 0 then
          return NumOut.ok realpart
        return NumOut.ok (makeComplex (getDouble realpart) (getDouble imagpart))
    else if c = 'i' then
      if ¬ signSeen ∨ rest1 ≠ [] then
        return NumOut.sfalse
      if ctx.exactness = Exactness.exact then
        return (if ctx.strict then NumOut.serror else NumOut.sfalse)
      if (scmSign realpart).getD 1 = 0 then
        return NumOut.ok (ScmNum.flonum (DD.fin false 0 0))
      return NumOut.ok (makeComplex (DD.fin false 0 0) (getDouble realpart))
    else
      return NumOut.sfalse
  | [] => return NumOut.ok realpart

/-- `read_number` (entry point of the parser). -/
def read_number (str : List Char) (radix : ℤ) (strict : Bool) : NumOut := Id.run do
  if radix ≤ 1 ∨ radix > 36 then
    return NumOut.sfalse
  let ctx0 : NCtx := { radix := radix.toNat, exactness := Exactness.noexact,
                       padread := false, strict := strict }
  match prefixLoop str ctx0 false false with
  | none => return NumOut.sfalse
  | some (s, ctx) =>
    if s = [] then
      return NumOut.sfalse
    let signSeen : Bool := s.head? = some '+' ∨ s.head? = some '-'
    if signSeen then
      if s.length = 1 then
        return NumOut.sfalse
      if s.length = 2 ∧ (s.get? 1 = some 'i' ∨ s.get? 1 = some 'I') then
        if ctx.exactness = Exactness.exact then
          return (if strict then NumOut.serror else NumOut.sfalse)
        return NumOut.ok (makeComplex (DD.fin false 0 0)
          (if s.head? = some '+' then i2d 1 else (i2d 1).neg))
    let rr := read_real s ctx
    match rr.1 with
    | ROut.rerror => return NumOut.serror
    | ROut.rfalse => return NumOut.sfalse
    | ROut.ok realpart =>
      if rr.2.1 = [] then
        return NumOut.ok realpart
      return readNumberTail realpart rr.2.1 rr.2.2 signSeen

/-- `Scm_StringToNumber` (inputs here are ASCII, so the multibyte
`size != len` rejection never fires). -/
def stringToNumber (s : String) (radix : ℤ) (strict : Bool) : NumOut :=
  read_number s.toList radix strict

/-! ## Claims -/

/-- **C1** (counter-evidence; the claim is right, the code is wrong).
The claim: for every finite flonum `x ≠ 0`,
`string→number(number→string(x, 10), 10)` returns a flonum bit-for-bit
identical to `x`.  Failing input: `x = (2^52+1)·2^-78`
(`1.4901161193847659e-8`, hex `0x1.0000000000001p-26`), a finite nonzero
double.  The printer emits the (valid, shortest) numeral
`"1.490116119384766e-8"`; reading it back computes
`(double)1490116119384766 / 1.0e23` — but the double `1.0e23` is *not*
`10^23` (`5^23 > 2^53`, contradicting the comment above
`MAX_EXACT_10_EXP` that claims `10.0^N` is exact for `N ≤ 23`), and
since `exponent - fracdigs = -23` is not `< -MAX_EXACT_10_EXP`, the
`algorithmR` refinement is skipped.  The result is the neighbouring
double `(2^52+2)·2^-78`, one ulp above `x`. -/
theorem c1_roundtrip_fails_at_1p26 :
    numberToString (ScmNum.flonum (DD.fin false (2 ^ 52 + 1) (-78))) 10 false
      = "1.490116119384766e-8" ∧
    stringToNumber "1.490116119384766e-8" 10 false
      = NumOut.ok (ScmNum.flonum (DD.fin false (2 ^ 52 + 2) (-78))) ∧
    stringToNumber
        (numberToString (ScmNum.flonum (DD.fin false (2 ^ 52 + 1) (-78))) 10 false)
        10 false
      ≠ NumOut.ok (ScmNum.flonum (DD.fin false (2 ^ 52 + 1) (-78))) := by
  refine ⟨by decide, by decide, by decide⟩

/-- **C2** (counterexample).  The binary64 nearest `10^23` is
`5960464477539062·2^24` (= `99999999999999991611392`), and
`number→string` of that flonum at radix 10 is *not* `"1e23"`: after the
scale fixup (`est` becomes 24) the single digit `1` is generated with
`digs = point = 1`, so the `digs <= point` branch appends `".0"` and the
output is `"1.0e23"`. -/
theorem c2_counterexample_not_1e23 :
    i2d (10 ^ 23) = DD.fin false 5960464477539062 24 ∧
    numberToString (ScmNum.flonum (DD.fin false 5960464477539062 24)) 10 false
      ≠ "1e23" := by
  refine ⟨by decide, by decide⟩

/-- **C2** (amended): `number→string` of the flonum `1.0e23` at radix 10
returns exactly `"1.0e23"` (value-correct and round-trippable, but with
the mantissa written `1.0`, not the claimed bare `1`). -/
theorem c2_amended_prints_1_0e23 :
    numberToString (ScmNum.flonum (DD.fin false 5960464477539062 24)) 10 false
      = "1.0e23" := by decide

/-- **C9** (counterexample).  `double_print` tests `val == 0.0` first,
which is true for `-0.0` as well, so negative zero prints `"0.0"`, not
`"-0.0"`; and NaN prints the provisional `"#<nan>"`, not `"+nan.0"`. -/
theorem c9_counterexample_specials :
    numberToString (ScmNum.flonum (DD.fin true 0 0)) 10 false = "0.0" ∧
    ("0.0" : String) ≠ "-0.0" ∧
    numberToString (ScmNum.flonum DD.nan) 10 false = "#<nan>" ∧
    ("#<nan>" : String) ≠ "+nan.0" := by
  refine ⟨by decide, by decide, by decide, by decide⟩

/-- **C9** (amended): at radix 10 the special flonums print as
`+0.0 → "0.0"`, `-0.0 → "0.0"` (the sign is lost), `+∞ → "#i1/0"`,
`-∞ → "#i-1/0"`, `NaN → "#<nan>"`. -/
theorem c9_amended_specials :
    numberToString (ScmNum.flonum (DD.fin false 0 0)) 10 false = "0.0" ∧
    numberToString (ScmNum.flonum (DD.fin true 0 0)) 10 false = "0.0" ∧
    numberToString (ScmNum.flonum (DD.inf false)) 10 false = "#i1/0" ∧
    numberToString (ScmNum.flonum (DD.inf true)) 10 false = "#i-1/0" ∧
    numberToString (ScmNum.flonum DD.nan) 10 false = "#<nan>" := by
  refine ⟨by decide, by decide, by decide, by decide, by decide⟩

/-- **C6** (counterexample).  `Scm_Gcd`'s shortcut
`if (SCM_EXACT_ZERO_P(x)) return y;` returns the second argument
unchanged, so `gcd(0, -5) = -5`, not `|-5| = 5` as the claim states. -/
theorem c6_counterexample_gcd_zero_neg :
    scmGcd (ScmNum.int 0) (ScmNum.int (-5)) = some (ScmNum.int (-5)) ∧
    some (ScmNum.int (-5)) ≠ some (ScmNum.int 5) := by
  refine ⟨by decide, by decide⟩

/-- **C3** (counterexample).  `Scm_NumCmp` compares a fixnum against a
flonum by the binary64 subtraction `(double)a - x`; converting the
fixnum `2^53 + 1` to double rounds it to `2^53`, so comparing it with
the flonum `2^53` (= `2^52·2^1`) returns `0` although the exact
difference is `1 > 0`.  The fixnum-vs-ratnum comparison likewise goes
through doubles, and the ratnum-vs-ratnum "cheap screen" mis-orders
equal-numerator negative rationals: `NumCmp(-5/3, -5/2)` returns `-1`
although `-5/3 > -5/2`.  All three refute "without losing precision". -/
theorem c3_counterexample_precision_loss :
    isSmall (2 ^ 53 + 1) = true ∧
    numCmp (ScmNum.int (2 ^ 53 + 1)) (ScmNum.flonum (DD.fin false (2 ^ 52) 1))
      = some 0 ∧
    Int.sign ((2 ^ 53 + 1) - 2 ^ 53) = 1 ∧
    numCmp (ScmNum.int 1) (ScmNum.ratnum (2 ^ 60 + 1) (2 ^ 60)) = some 0 ∧
    Int.sign (1 * (2 ^ 60) - (2 ^ 60 + 1)) = -1 ∧
    numCmp (ScmNum.ratnum (-5) 3) (ScmNum.ratnum (-5) 2) = some (-1) ∧
    Int.sign ((-5) * 2 - (-5) * 3) = 1 := by
  refine ⟨by decide, by decide, by decide, by decide, by decide, by decide, by decide⟩

/-- **C8** (counterexample).  For an overflowed *negative* exponent the
reader returns the flonum `0.0`, not `±∞` as the claim states:
`string→number("1e-325", 10)` is `0.0`. -/
theorem c8_counterexample_neg_overflow :
    stringToNumber "1e-325" 10 false = NumOut.ok (ScmNum.flonum (DD.fin false 0 0)) ∧
    NumOut.ok (ScmNum.flonum (DD.fin false 0 0)) ≠ NumOut.ok posInf ∧
    NumOut.ok (ScmNum.flonum (DD.fin false 0 0)) ≠ NumOut.ok negInf := by
  refine ⟨by decide, by decide, by decide⟩

/-- **C6** (amended): `gcd(0, y)` returns `y` itself (the source's zero
shortcut returns the other argument unchanged), which equals `|y|`
exactly when `y ≥ 0`; for negative `y` the result is negative. -/
theorem c6_amended_gcd_zero (y : ℤ) :
    scmGcd (ScmNum.int 0) (ScmNum.int y) = some (ScmNum.int y) ∧
    (0 ≤ y → scmGcd (ScmNum.int 0) (ScmNum.int y) = some (ScmNum.int |y|)) := by
  constructor
  · simp [scmGcd, integerP, gcdInts]
  · intro hy
    simp [scmGcd, integerP, gcdInts, abs_of_nonneg hy]

/-- Witness for `c6_amended_gcd_zero` at `y = 3`. -/
theorem c6_amended_gcd_zero_w :
    scmGcd (ScmNum.int 0) (ScmNum.int 3) = some (ScmNum.int |3|) :=
  (c6_amended_gcd_zero 3).2 (by decide)

/-- **C10** (confirmed): multiplying any inexact number — flonum
(including `NaN` and `±∞`) or compnum — by the exact `SmallInt` zero, in
either order, returns the exact integer `0`: the dispatch arms test
`SCM_EXACT_ZERO_P` of the exact operand first and return it unchanged,
with no check of the other multiplicand. -/
theorem c10_exact_zero_absorbs (x : ScmNum)
    (hx : (∃ d, x = ScmNum.flonum d) ∨ ∃ r i, x = ScmNum.compnum r i) :
    scmMul (ScmNum.int 0) x = some (ScmNum.int 0) ∧
    scmMul x (ScmNum.int 0) = some (ScmNum.int 0) := by
  rcases hx with ⟨d, rfl⟩ | ⟨r, i, rfl⟩ <;> simp [scmMul]

/-- Witness for `c10_exact_zero_absorbs` at `x = NaN`. -/
theorem c10_exact_zero_absorbs_w :
    scmMul (ScmNum.int 0) (ScmNum.flonum DD.nan) = some (ScmNum.int 0) ∧
    scmMul (ScmNum.flonum DD.nan) (ScmNum.int 0) = some (ScmNum.int 0) :=
  c10_exact_zero_absorbs (ScmNum.flonum DD.nan) (Or.inl ⟨DD.nan, rfl⟩)

/-- **C5** (confirmed): division of a real by a zero divisor takes the
`ANORMAL` path and is decided by the sign of the numerator — `+∞` for a
positive numerator, `-∞` for a negative one, `NaN` for a zero numerator
— for exact integer, ratnum and flonum numerators, with both the exact
zero `SCM_MAKE_INT(0)` and the flonum `0.0` as divisor; in particular
`div(1,0) = +∞` (the code does *not* raise `DivisionByZero`, which the
spec's scenario list claims), `div(0,0) = NaN`, `div(1.0,0.0) = +∞`,
`div(0.0,0.0) = NaN`. -/
theorem c5_div_by_zero_anormal :
    (∀ a : ℤ, 0 < a → scmDiv (ScmNum.int a) (ScmNum.int 0) = some posInf) ∧
    (∀ a : ℤ, a < 0 → scmDiv (ScmNum.int a) (ScmNum.int 0) = some negInf) ∧
    scmDiv (ScmNum.int 0) (ScmNum.int 0) = some scmNaN ∧
    (∀ n d : ℤ, 0 < n → scmDiv (ScmNum.ratnum n d) (ScmNum.int 0) = some posInf) ∧
    (∀ n d : ℤ, n < 0 → scmDiv (ScmNum.ratnum n d) (ScmNum.int 0) = some negInf) ∧
    (∀ x : DD, dcmpSign x = 1 →
      scmDiv (ScmNum.flonum x) (ScmNum.flonum (DD.fin false 0 0)) = some posInf ∧
      scmDiv (ScmNum.flonum x) (ScmNum.int 0) = some posInf) ∧
    (∀ x : DD, dcmpSign x = -1 →
      scmDiv (ScmNum.flonum x) (ScmNum.flonum (DD.fin false 0 0)) = some negInf ∧
      scmDiv (ScmNum.flonum x) (ScmNum.int 0) = some negInf) ∧
    (∀ x : DD, dcmpSign x = 0 →
      scmDiv (ScmNum.flonum x) (ScmNum.flonum (DD.fin false 0 0)) = some scmNaN ∧
      scmDiv (ScmNum.flonum x) (ScmNum.int 0) = some scmNaN) ∧
    scmDiv (ScmNum.int 1) (ScmNum.int 0) = some posInf ∧
    scmDiv (ScmNum.flonum (i2d 1)) (ScmNum.flonum (DD.fin false 0 0)) = some posInf ∧
    scmDiv (ScmNum.flonum (DD.fin false 0 0)) (ScmNum.flonum (DD.fin false 0 0))
      = some scmNaN := by
  refine ⟨?_, ?_, by decide, ?_, ?_, ?_, ?_, ?_, by decide, by decide, by decide⟩
  · intro a ha
    simp [scmDiv, divInternal, divANormal, scmSign, Int.sign_eq_one_iff_pos.mpr ha,
      ha.ne.symm, ha.not_lt]
  · intro a ha
    simp [scmDiv, divInternal, divANormal, scmSign,
      Int.sign_eq_neg_one_iff_neg.mpr ha, ha.ne, ha]
  · intro n d hn
    simp [scmDiv, divInternal, divANormal, scmSign, Int.sign_eq_one_iff_pos.mpr hn,
      hn.ne.symm, hn.not_lt]
  · intro n d hn
    simp [scmDiv, divInternal, divANormal, scmSign,
      Int.sign_eq_neg_one_iff_neg.mpr hn, hn.ne, hn]
  · intro x hx
    constructor <;> simp [scmDiv, divInternal, divANormal, scmSign, hx, dcmpE]
  · intro x hx
    constructor <;> simp [scmDiv, divInternal, divANormal, scmSign, hx, dcmpE]
  · intro x hx
    constructor <;> simp [scmDiv, divInternal, divANormal, scmSign, hx, dcmpE]

/-- Witness for `c5_div_by_zero_anormal` at numerator `2` / `-3`. -/
theorem c5_div_by_zero_anormal_w :
    scmDiv (ScmNum.int 2) (ScmNum.int 0) = some posInf ∧
    scmDiv (ScmNum.int (-3)) (ScmNum.int 0) = some negInf :=
  ⟨c5_div_by_zero_anormal.1 2 (by decide), c5_div_by_zero_anormal.2.1 (-3) (by decide)⟩

/-- `(-a) tmod b = -(a tmod b)` (C remainder has the dividend's sign). -/
theorem neg_tmod (a b : ℤ) : Int.tmod (-a) b = -(Int.tmod a b) := by
  have h1 := Int.tdiv_add_tmod (-a) b
  have h2 := Int.tdiv_add_tmod a b
  rw [Int.neg_tdiv, mul_neg] at h1
  omega

/-- For a nonpositive dividend the truncating remainder is nonpositive. -/
theorem tmod_nonpos_of_nonpos {a : ℤ} (b : ℤ) (ha : a ≤ 0) : Int.tmod a b ≤ 0 := by
  have := Int.tmod_nonneg b (by omega : (0:ℤ) ≤ -a)
  rw [neg_tmod] at this
  omega

/-- For a positive divisor the truncating remainder exceeds `-b`. -/
theorem neg_lt_tmod (a : ℤ) {b : ℤ} (hb : 0 < b) : -b < Int.tmod a b := by
  rcases le_or_lt 0 a with ha | ha
  · have := Int.tmod_nonneg b ha
    omega
  · have := Int.tmod_lt_of_pos (-a) hb
    rw [neg_tmod] at this
    omega

/-- **C4** (confirmed): for exact integers `a` and `b > 0`, `quotient`
truncates toward zero (its magnitude is `⌊|a|/|b|⌋` and its sign follows
`a`), `mul(quotient(a,b), b) + remainder(a,b) = a` holds through the
embedded `Scm_Mul`/`Scm_Add`, `sign(remainder) ∈ {0, sign a}`,
`sign(modulo) ∈ {0, sign b}`, and concretely `quotient(-7,2) = -3`,
`remainder(-7,2) = -1`, `modulo(-7,2) = 1`. -/
theorem c4_quotient_remainder_modulo (a b : ℤ) (hb : 0 < b) :
    scmQuotient (ScmNum.int a) (ScmNum.int b)
      = some (ScmNum.int (Int.tdiv a b), ScmNum.int (Int.tmod a b)) ∧
    (Int.tdiv a b).natAbs = a.natAbs / b.natAbs ∧
    (0 ≤ a → 0 ≤ Int.tdiv a b) ∧ (a ≤ 0 → Int.tdiv a b ≤ 0) ∧
    scmAdd ((scmMul (ScmNum.int (Int.tdiv a b)) (ScmNum.int b)).getD (ScmNum.int 0))
        (ScmNum.int (Int.tmod a b)) = some (ScmNum.int a) ∧
    scmModulo (ScmNum.int a) (ScmNum.int b) true = some (ScmNum.int (Int.tmod a b)) ∧
    (Int.tmod a b = 0 ∨ Int.sign (Int.tmod a b) = Int.sign a) ∧
    (∀ m : ℤ, scmModulo (ScmNum.int a) (ScmNum.int b) false = some (ScmNum.int m) →
      m = 0 ∨ Int.sign m = Int.sign b) ∧
    scmQuotient (ScmNum.int (-7)) (ScmNum.int 2)
      = some (ScmNum.int (-3), ScmNum.int (-1)) ∧
    scmModulo (ScmNum.int (-7)) (ScmNum.int 2) true = some (ScmNum.int (-1)) ∧
    scmModulo (ScmNum.int (-7)) (ScmNum.int 2) false = some (ScmNum.int 1) := by
  refine ⟨?_, Int.natAbs_tdiv a b, ?_, ?_, ?_, ?_, ?_, ?_, by decide, by decide, by decide⟩
  · by_cases hb1 : b = 1
    · subst hb1
      simp [scmQuotient, integerP, tdiv, tmod]
    · have : ScmNum.int b ≠ ScmNum.int 1 := by simpa using hb1
      simp [scmQuotient, this, tdiv, tmod, hb.ne.symm]
  · intro ha
    rw [Int.tdiv_eq_ediv ha hb.le]
    exact Int.ediv_nonneg ha hb.le
  · intro ha
    have h1 : 0 ≤ Int.tdiv (-a) b := by
      rw [Int.tdiv_eq_ediv (by omega) hb.le]
      exact Int.ediv_nonneg (by omega) hb.le
    rw [Int.neg_tdiv] at h1
    omega
  · have h := Int.tdiv_add_tmod a b
    simp only [scmMul, Option.getD_some, scmAdd, Option.some.injEq, ScmNum.int.injEq]
    rw [mul_comm (Int.tdiv a b) b]
    exact h
  · simp [scmModulo, hb.ne.symm, tmod]
  · rcases lt_trichotomy a 0 with ha | ha | ha
    · rcases eq_or_ne (Int.tmod a b) 0 with h0 | h0
      · exact Or.inl h0
      · right
        have := tmod_nonpos_of_nonpos b ha.le
        rw [Int.sign_eq_neg_one_iff_neg.mpr (by omega),
            Int.sign_eq_neg_one_iff_neg.mpr ha]
    · subst ha
      left
      have := Int.tmod_nonneg b (le_refl (0:ℤ))
      have := tmod_nonpos_of_nonpos (a := 0) b (le_refl (0:ℤ))
      omega
    · rcases eq_or_ne (Int.tmod a b) 0 with h0 | h0
      · exact Or.inl h0
      · right
        have := Int.tmod_nonneg b ha.le
        rw [Int.sign_eq_one_iff_pos.mpr (by omega), Int.sign_eq_one_iff_pos.mpr ha]
  · intro m hm
    have hbne : b ≠ 0 := hb.ne.symm
    simp only [scmModulo, hbne, if_false, tmod] at hm
    by_cases hcond : ¬ false = true ∧ Int.tmod a b ≠ 0 ∧
        (a > 0 ∧ b < 0 ∨ a < 0 ∧ b > 0)
    · rw [if_pos hcond] at hm
      have hr := tmod_nonpos_of_nonpos b (le_of_lt (by omega : a < 0))
      have hr2 := neg_lt_tmod a hb
      have hm' : m = Int.tmod a b + b := by
        simpa using hm.symm
      right
      rw [Int.sign_eq_one_iff_pos.mpr (by omega : (0:ℤ) < m),
          Int.sign_eq_one_iff_pos.mpr hb]
    · rw [if_neg hcond] at hm
      have hm' : m = Int.tmod a b := by simpa using hm.symm
      subst hm'
      rcases lt_trichotomy a 0 with ha | ha | ha
      · -- with a < 0 and b > 0, the untaken adjustment forces tmod a b = 0
        left
        by_contra h0
        exact hcond ⟨by simp, h0, Or.inr ⟨ha, hb⟩⟩
      · left
        subst ha
        have := Int.tmod_nonneg b (le_refl (0:ℤ))
        have := tmod_nonpos_of_nonpos (a := 0) b (le_refl (0:ℤ))
        omega
      · rcases eq_or_ne (Int.tmod a b) 0 with h0 | h0
        · exact Or.inl h0
        · right
          have h1 := Int.tmod_nonneg b ha.le
          rw [Int.sign_eq_one_iff_pos.mpr (by omega), Int.sign_eq_one_iff_pos.mpr hb]

/-- Witness for `c4_quotient_remainder_modulo` at `a = -7`, `b = 2`. -/
theorem c4_quotient_remainder_modulo_w :
    scmQuotient (ScmNum.int (-7)) (ScmNum.int 2)
      = some (ScmNum.int (Int.tdiv (-7) 2), ScmNum.int (Int.tmod (-7) 2)) :=
  (c4_quotient_remainder_modulo (-7) 2 (by decide)).1

/-! ### C7: ratnum invariants -/

/-- The claimed ratnum invariant: *if* a value is a ratnum, its stored
denominator is positive, numerator and denominator are coprime, the
denominator is not `1` and the numerator is not `0`. -/
def RatInvariant (v : ScmNum) : Prop :=
  ∀ n d : ℤ, v = ScmNum.ratnum n d → 0 < d ∧ Int.gcd n d = 1 ∧ d ≠ 1 ∧ n ≠ 0

/-- `RatInvariant` lifted through `Option` (error results are vacuous). -/
def RatInvariantO (v : Option ScmNum) : Prop :=
  ∀ x, v = some x → RatInvariant x

theorem ratInv_int (i : ℤ) : RatInvariant (ScmNum.int i) := by
  intro n d h
  cases h

theorem ratInv_flonum (x : DD) : RatInvariant (ScmNum.flonum x) := by
  intro n d h
  cases h

theorem ratInv_compnum (r i : DD) : RatInvariant (ScmNum.compnum r i) := by
  intro n d h
  cases h

theorem ratInv_makeComplex (r i : DD) : RatInvariant (makeComplex r i) := by
  unfold makeComplex
  split
  · exact ratInv_flonum r
  · exact ratInv_compnum r i

theorem reduceCore_inv (n d : ℤ) (hd : 0 ≤ d) : RatInvariant (reduceCore n d) := by
  unfold reduceCore
  by_cases hd1 : d = 1
  · simp only [hd1, if_true]
    exact ratInv_int n
  by_cases hd0 : d = 0
  · rw [if_neg hd1, if_pos hd0]
    intro a b h
    split at h
    · exact absurd h (by simp [posInf])
    · split at h
      · exact absurd h (by simp [negInf])
      · exact absurd h (by simp [scmNaN])
  have hd2 : 0 < d := by omega
  simp only [hd1, if_false, hd0]
  by_cases hn0 : n = 0
  · subst hn0
    have hg : gcdInts 0 d = d := by simp [gcdInts]
    simp only [hg, hd1, if_false]
    have h1 : tdiv 0 d = 0 := by simp [tdiv]
    have h2 : tdiv d d = 1 := by simp [tdiv, Int.tdiv_self hd0]
    simp only [h1, h2, if_true]
    exact ratInv_int 0
  · have hgg : gcdInts n d = (Int.gcd n d : ℤ) := by simp [gcdInts, hn0, hd0]
    have hgpos : 0 < Int.gcd n d := Int.gcd_pos_of_ne_zero_left d hn0
    by_cases hg1 : gcdInts n d = 1
    · simp only [hg1, if_true]
      intro a b h
      injection h with h1 h2
      subst h1; subst h2
      refine ⟨hd2, ?_, hd1, hn0⟩
      rw [hgg] at hg1
      exact_mod_cast hg1
    · simp only [hg1, if_false]
      rw [hgg]
      have hdl : ((Int.gcd n d : ℤ)) ∣ n := Int.gcd_dvd_left
      have hdr : ((Int.gcd n d : ℤ)) ∣ d := Int.gcd_dvd_right
      simp only [tdiv]
      rw [Int.tdiv_eq_ediv_of_dvd hdl, Int.tdiv_eq_ediv_of_dvd hdr]
      have hgne : ((Int.gcd n d : ℤ)) ≠ 0 := by exact_mod_cast hgpos.ne.symm
      have hd'pos : 0 < d / (Int.gcd n d : ℤ) :=
        Int.ediv_pos_of_pos_of_dvd hd2 (by exact_mod_cast hgpos.le) hdr
      have hn'ne : n / (Int.gcd n d : ℤ) ≠ 0 := by
        intro h0
        have hcancel := Int.mul_ediv_cancel' hdl
        rw [h0, mul_zero] at hcancel
        exact hn0 hcancel.symm
      have hcop : Int.gcd (n / (Int.gcd n d : ℤ)) (d / (Int.gcd n d : ℤ)) = 1 :=
        Int.gcd_div_gcd_div_gcd hgpos
      split
      · exact ratInv_int _
      · intro a b h
        injection h with h1 h2
        subst h1; subst h2
        exact ⟨hd'pos, hcop, by assumption, hn'ne⟩

/-- Core lemma: `Scm_ReduceRational` applied to any stored
numerator/denominator pair produces an invariant-satisfying value
(a ratnum in lowest terms with denominator `> 1`, or an integer, or one
of the `±∞`/`NaN` flonums for a zero denominator). -/
theorem reduceRatnum_inv (numer denom : ℤ) : RatInvariant (reduceRatnum numer denom) := by
  unfold reduceRatnum
  split
  · next h =>
    have hneg : denom < 0 := by
      rcases lt_trichotomy denom 0 with hh | hh | hh
      · exact hh
      · simp [hh] at h
      · rw [Int.sign_eq_one_iff_pos.mpr hh] at h; omega
    exact reduceCore_inv _ _ (by omega)
  · next h =>
    have hnn : 0 ≤ denom := by
      rcases lt_trichotomy denom 0 with hh | hh | hh
      · rw [Int.sign_eq_neg_one_iff_neg.mpr hh] at h; omega
      · omega
      · omega
    exact reduceCore_inv _ _ hnn

/-- `Scm_MakeRational` always produces an invariant-satisfying value. -/
theorem makeRational_inv (n d : ℤ) : RatInvariant (makeRational n d) := by
  unfold makeRational
  split
  · exact ratInv_int n
  · split
    · exact ratInv_int 0
    · exact reduceRatnum_inv n d

/-- `Scm_ReduceRational` (the public wrapper). -/
theorem scmReduceRational_inv (x : ScmNum) : RatInvariantO (scmReduceRational x) := by
  intro v hv
  cases x <;> simp only [scmReduceRational] at hv
  · cases hv; exact ratInv_int _
  · cases hv; exact reduceRatnum_inv _ _
  · cases hv
  · cases hv

/-- `Scm_RatnumAddSub` always produces an invariant-satisfying value
(its result goes through `Scm_MakeRational`). -/
theorem ratnumAddSub_inv (x y : ScmNum) (sub : Bool) :
    RatInvariantO (ratnumAddSub x y sub) := by
  intro v hv
  unfold ratnumAddSub at hv
  cases hpx : ratParts x with
  | none => rw [hpx] at hv; cases hv
  | some px =>
    rw [hpx] at hv
    cases hpy : ratParts y with
    | none => rw [hpy] at hv; cases hv
    | some py =>
      rw [hpy] at hv
      obtain ⟨nx0, dx⟩ := px
      obtain ⟨ny0, dy⟩ := py
      simp only [Option.bind_eq_bind, Option.some_bind] at hv
      split_ifs at hv <;> (cases hv; exact makeRational_inv _ _)

/-- `Scm_RatnumMulDiv` always produces an invariant-satisfying value. -/
theorem ratnumMulDiv_inv (x y : ScmNum) (dv : Bool) :
    RatInvariantO (ratnumMulDiv x y dv) := by
  intro v hv
  unfold ratnumMulDiv at hv
  cases hpx : ratParts x with
  | none => rw [hpx] at hv; cases hv
  | some px =>
    rw [hpx] at hv
    cases hpy : ratParts y with
    | none => rw [hpy] at hv; cases hv
    | some py =>
      rw [hpy] at hv
      obtain ⟨nx, dx⟩ := px
      obtain ⟨ny0, dy0⟩ := py
      simp only [Option.bind_eq_bind, Option.some_bind] at hv
      cases hv
      exact makeRational_inv _ _

theorem makeRational_invO (n d : ℤ) : RatInvariantO (some (makeRational n d)) := by
  intro v hv
  cases hv
  exact makeRational_inv n d

/-- `Scm_Negate` preserves the ratnum invariant (its ratnum arm goes
through `Scm_MakeRational`). -/
theorem scmNegate_inv (x : ScmNum) (hx : RatInvariant x) : RatInvariant (scmNegate x) := by
  cases x with
  | int a => exact ratInv_int _
  | flonum d => exact ratInv_flonum _
  | compnum r i => exact ratInv_compnum _ _
  | ratnum n d => exact makeRational_inv _ _

/-- `Scm_Reciprocal` always produces an invariant-satisfying value. -/
theorem scmReciprocal_inv (x : ScmNum) : RatInvariant (scmReciprocal x) := by
  cases x with
  | int a => exact makeRational_inv _ _
  | flonum d => exact ratInv_flonum _
  | compnum r i => exact ratInv_makeComplex _ _
  | ratnum n d => exact makeRational_inv _ _

theorem exactToInexact_inv (x : ScmNum) : RatInvariant (exactToInexact x) := by
  cases x with
  | int a => exact ratInv_flonum _
  | flonum d => exact ratInv_flonum _
  | compnum r i => exact ratInv_compnum _ _
  | ratnum n d => exact ratInv_flonum _

/-- `Scm_Add` preserves the ratnum invariant: its ratnum results come
from input pass-through shortcuts or from `Scm_RatnumAddSub`. -/
theorem scmAdd_inv (x y : ScmNum) (hx : RatInvariant x) (hy : RatInvariant y) :
    RatInvariantO (scmAdd x y) := by
  intro v hv
  cases x <;> cases y <;>
    simp only [scmAdd, Option.some.injEq] at hv <;>
    first
    | (exact ratnumAddSub_inv _ _ _ v hv)
    | (split_ifs at hv <;>
        first
        | (exact ratnumAddSub_inv _ _ _ v hv)
        | (cases hv; first
            | exact ratInv_int _
            | exact ratInv_flonum _
            | exact ratInv_compnum _ _
            | exact ratInv_makeComplex _ _
            | exact hx
            | exact hy))
    | (cases hv; first
        | exact ratInv_int _
        | exact ratInv_flonum _
        | exact ratInv_compnum _ _
        | exact ratInv_makeComplex _ _
        | exact hx
        | exact hy)

/-- `Scm_Sub` preserves the ratnum invariant. -/
theorem scmSub_inv (x y : ScmNum) (hx : RatInvariant x) (hy : RatInvariant y) :
    RatInvariantO (scmSub x y) := by
  intro v hv
  cases x <;> cases y <;>
    simp only [scmSub, Option.some.injEq] at hv <;>
    first
    | (exact ratnumAddSub_inv _ _ _ v hv)
    | (split_ifs at hv <;>
        first
        | (exact ratnumAddSub_inv _ _ _ v hv)
        | (cases hv; first
            | exact ratInv_int _
            | exact ratInv_flonum _
            | exact ratInv_compnum _ _
            | exact ratInv_makeComplex _ _
            | exact hx
            | exact hy))
    | (cases hv; first
        | exact ratInv_int _
        | exact ratInv_flonum _
        | exact ratInv_compnum _ _
        | exact ratInv_makeComplex _ _
        | exact hx
        | exact hy)

/-- `Scm_Mul` preserves the ratnum invariant. -/
theorem scmMul_inv (x y : ScmNum) (hx : RatInvariant x) (hy : RatInvariant y) :
    RatInvariantO (scmMul x y) := by
  intro v hv
  cases x <;> cases y <;>
    simp only [scmMul, Option.some.injEq] at hv <;>
    first
    | (exact ratnumMulDiv_inv _ _ _ v hv)
    | (split_ifs at hv <;>
        first
        | (exact ratnumMulDiv_inv _ _ _ v hv)
        | (cases hv; first
            | exact ratInv_int _
            | exact ratInv_flonum _
            | exact ratInv_compnum _ _
            | exact ratInv_makeComplex _ _
            | exact hx
            | exact hy))
    | (cases hv; first
        | exact ratInv_int _
        | exact ratInv_flonum _
        | exact ratInv_compnum _ _
        | exact ratInv_makeComplex _ _
        | exact hx
        | exact hy)

theorem divANormal_inv (x : ScmNum) : RatInvariantO (divANormal x) := by
  intro v hv
  unfold divANormal at hv
  cases hs : scmSign x with
  | none => rw [hs] at hv; cases hv
  | some s =>
    rw [hs] at hv
    simp only [Option.bind_eq_bind, Option.some_bind] at hv
    split_ifs at hv <;>
      (cases hv; first
        | exact ratInv_flonum _
        | (unfold scmNaN; exact ratInv_flonum _)
        | (unfold negInf; exact ratInv_flonum _)
        | (unfold posInf; exact ratInv_flonum _))

theorem quotientFlonum_fst (rx ry : DD) (q r : ScmNum)
    (h : quotientFlonum rx ry = some (q, r)) : RatInvariant q := by
  unfold quotientFlonum at h
  split_ifs at h
  injection h with h1
  injection h1 with h2 h3
  exact h2 ▸ ratInv_flonum _

theorem scmQuotient_fst_inv (x y : ScmNum) (hx : RatInvariant x) (q r : ScmNum)
    (h : scmQuotient x y = some (q, r)) : RatInvariant q := by
  unfold scmQuotient at h
  by_cases h1 : y = ScmNum.int 1
  · rw [if_pos h1] at h
    by_cases h2 : integerP x = true
    · rw [if_pos h2] at h
      injection h with hh
      injection hh with hq hr
      exact hq ▸ hx
    · rw [if_neg h2] at h
      exact Option.noConfusion h
  · rw [if_neg h1] at h
    cases x <;> cases y <;> simp only at h <;>
      first
        | exact Option.noConfusion h
        | (split_ifs at h <;>
            first
              | exact Option.noConfusion h
              | (injection h with hh; injection hh with hq hr; exact hq ▸ ratInv_int _)
              | exact quotientFlonum_fst _ _ _ _ h)

theorem divCoerceInexact_inv (x y : ScmNum) (hx : RatInvariant x) :
    RatInvariantO (divCoerceInexact x y) := by
  intro v hv
  unfold divCoerceInexact at hv
  cases hq : scmQuotient x y with
  | none => rw [hq] at hv; cases hv
  | some qr =>
    rw [hq] at hv
    obtain ⟨q, r⟩ := qr
    simp only [Option.bind_eq_bind, Option.some_bind] at hv
    split_ifs at hv
    · cases hv
      exact scmQuotient_fst_inv x y hx _ _ hq
    · cases hv
      exact ratInv_flonum _

/-- `div_internal` (hence `Scm_Div` and `Scm_DivInexact`) preserves the
ratnum invariant: its ratnum results come from pass-through shortcuts,
`Scm_MakeRational` or `Scm_RatnumMulDiv`. -/
theorem divInternal_inv (x y : ScmNum) (ac : Bool)
    (hx : RatInvariant x) (hy : RatInvariant y) :
    RatInvariantO (divInternal x y ac) := by
  intro v hv
  cases x <;> cases y <;>
    simp only [divInternal, Option.some.injEq] at hv <;>
    first
    | (exact ratnumMulDiv_inv _ _ _ v hv)
    | (exact divANormal_inv _ v hv)
    | (split_ifs at hv <;>
        first
        | (exact ratnumMulDiv_inv _ _ _ v hv)
        | (exact divANormal_inv _ v hv)
        | (exact divCoerceInexact_inv _ _ hx v hv)
        | (cases hv; first
            | exact ratInv_int _
            | exact ratInv_flonum _
            | exact ratInv_compnum _ _
            | exact ratInv_makeComplex _ _
            | exact makeRational_inv _ _
            | exact hx
            | exact hy))
    | (cases hv; first
        | exact ratInv_int _
        | exact ratInv_flonum _
        | exact ratInv_compnum _ _
        | exact ratInv_makeComplex _ _
        | exact makeRational_inv _ _
        | exact hx
        | exact hy)

/-- `Scm_Round` never constructs a ratnum: an exact integer passes
through, a ratnum is rounded to an exact integer, a flonum stays a
flonum. -/
theorem scmRound_inv (num : ScmNum) (mode : RoundMode) :
    RatInvariantO (scmRound num mode) := by
  intro v hv
  cases num with
  | int i => cases hv; exact ratInv_int _
  | flonum x => cases hv; exact ratInv_flonum _
  | compnum a b => cases hv
  | ratnum n d =>
    simp only [scmRound, Option.bind_eq_bind] at hv
    cases hq : scmQuotient (ScmNum.int n) (ScmNum.int d) with
    | none => rw [hq] at hv; cases hv
    | some qr =>
      rw [hq] at hv
      obtain ⟨quot, rem⟩ := qr
      simp only [Option.some_bind] at hv
      cases quot <;> cases rem <;> simp only at hv <;> try cases hv
      case int.int q r =>
        simp only [scmSign, Option.pure_def, Option.some_bind] at hv
        cases mode <;>
          simp only [Option.pure_def, Option.some_bind] at hv <;>
          split_ifs at hv <;> (cases hv; exact ratInv_int _)

/-- `Scm_Mul` with a fallback value: helper for the square-and-multiply
loop, where the source never hits the error path. -/
theorem getD_mul_inv (a b c : ScmNum) (ha : RatInvariant a) (hb : RatInvariant b)
    (hc : RatInvariant c) : RatInvariant ((scmMul a b).getD c) := by
  cases hm : scmMul a b with
  | none => exact hc
  | some w => exact scmMul_inv a b ha hb w hm

/-- The square-and-multiply loop of `exact_expt` preserves the ratnum
invariant (all multiplications go through `Scm_Mul`). -/
theorem exactExptLoop_inv (fuel : ℕ) (x : ScmNum) (iy : ℕ) (r : ScmNum)
    (hx : RatInvariant x) (hr : RatInvariant r) :
    RatInvariant (exactExptLoop fuel x iy r) := by
  induction fuel generalizing x iy r with
  | zero => exact hr
  | succ n ih =>
    match iy with
    | 0 => exact hr
    | 1 => exact getD_mul_inv _ _ _ hr hx hr
    | (k + 2) =>
      refine ih _ _ _ (getD_mul_inv _ _ _ hx hx hx) ?_
      split_ifs
      · exact getD_mul_inv _ _ _ hr hx hr
      · exact hr

/-- `exact_expt` preserves the ratnum invariant: its results are exact
integers, `Scm_Mul` products, or `Scm_Reciprocal` of those. -/
theorem exactExpt_inv (x y : ScmNum) (hx : RatInvariant x) :
    RatInvariantO (exactExpt x y) := by
  intro v hv
  simp only [exactExpt, Option.bind_eq_bind] at hv
  cases hs : scmSign y with
  | none => rw [hs] at hv; cases hv
  | some sign =>
    rw [hs] at hv
    simp only [Option.some_bind] at hv
    by_cases h0 : sign = 0
    · rw [if_pos h0] at hv; cases hv; exact ratInv_int _
    rw [if_neg h0] at hv
    by_cases h1 : x = ScmNum.int 1
    · rw [if_pos h1] at hv; cases hv; exact ratInv_int _
    rw [if_neg h1] at hv
    by_cases h2 : x = ScmNum.int (-1)
    · rw [if_pos h2] at hv
      cases hv
      split_ifs <;> exact ratInv_int _
    rw [if_neg h2] at hv
    cases y <;> simp only at hv <;> try cases hv
    split_ifs at hv <;> cases hv <;>
      first
        | exact scmReciprocal_inv _
        | exact ratInv_int _
        | exact exactExptLoop_inv _ _ _ _ hx (ratInv_int _)

/-- `exact_expt` with a fallback value: helper for the reader. -/
theorem getD_exactExpt_inv (x y d : ScmNum) (hx : RatInvariant x) (hd : RatInvariant d) :
    RatInvariant ((exactExpt x y).getD d) := by
  cases hm : exactExpt x y with
  | none => exact hd
  | some w => exact exactExpt_inv x y hx w hm

/-- The composition stage of `read_real` preserves the ratnum
invariant: its exact results go through `Scm_Mul`/`exact_expt` and
`Scm_Negate`, its inexact results are flonums. -/
theorem readCompose_inv (minusp : Bool) (fraction : ℤ) (fracdigs : ℕ) (exponent : ℤ)
    (expMinus ovf : Bool) (rest : List Char) (ctx : NCtx) (v : ScmNum)
    (hv : (readCompose minusp fraction fracdigs exponent expMinus ovf rest ctx).1 =
      ROut.ok v) :
    RatInvariant v := by
  unfold readCompose numreadError at hv
  simp only at hv
  split_ifs at hv <;> try cases hv
  all_goals try
    first
      | exact ratInv_flonum _
      | (unfold negInf; exact ratInv_flonum _)
      | (unfold posInf; exact ratInv_flonum _)
      | exact scmNegate_inv _ (getD_mul_inv _ _ _ (ratInv_int _)
          (getD_exactExpt_inv _ _ _ (ratInv_int _) (ratInv_int _)) (ratInv_int _))
      | exact getD_mul_inv _ _ _ (ratInv_int _)
          (getD_exactExpt_inv _ _ _ (ratInv_int _) (ratInv_int _)) (ratInv_int _)
  all_goals (split at hv <;> try cases hv) <;>
    first
      | exact ratInv_flonum _
      | (unfold negInf; exact ratInv_flonum _)
      | (unfold posInf; exact ratInv_flonum _)

/-- The fraction-and-exponent tail of `read_real` preserves the ratnum
invariant: every successful result comes out of the composition stage. -/
theorem readRealTail_inv (intpart : Option ℤ) (minusp : Bool) (s : List Char)
    (ctx : NCtx) (v : ScmNum)
    (hv : (readRealTail intpart minusp s ctx).1 = ROut.ok v) : RatInvariant v := by
  unfold readRealTail numreadError at hv
  simp only [Id.run, Id.pure_eq, Id.bind_eq] at hv
  repeat'
    first
      | exact readCompose_inv _ _ _ _ _ _ _ _ _ hv
      | cases hv
      | split_ifs at hv
      | split at hv

set_option maxHeartbeats 2000000 in
/-- `read_real` preserves the ratnum invariant: exact results are
integers, `Scm_MakeRational` values, or composition-stage values;
inexact results are flonums. -/
theorem read_real_inv (s0 : List Char) (ctx0 : NCtx) (v : ScmNum)
    (hv : (read_real s0 ctx0).1 = ROut.ok v) : RatInvariant v := by
  unfold read_real numreadError at hv
  simp only [Id.run, Id.pure_eq, Id.bind_eq] at hv
  set s1 := if s0.head? = some '-' ∨ s0.head? = some '+' then s0.tail else s0 with hs1
  set ru := read_uint s1 ctx0 none with hru
  set rd := read_uint ru.2.1.tail ru.2.2 none with hrd
  repeat'
    first
      | exact readRealTail_inv _ _ _ _ _ hv
      | cases hv
      | split_ifs at hv
      | split at hv
  all_goals
    first
      | exact ratInv_int _
      | exact exactToInexact_inv _
      | exact makeRational_inv _ _
      | (unfold scmNaN; exact ratInv_flonum _)
      | (unfold negInf; exact ratInv_flonum _)
      | (unfold posInf; exact ratInv_flonum _)

set_option maxHeartbeats 4000000 in
/-- The complex-continuation tail of `read_number` preserves the ratnum
invariant, given an invariant real part. -/
theorem readNumberTail_inv (realpart : ScmNum) (rest : List Char) (ctx : NCtx)
    (signSeen : Bool) (hr : RatInvariant realpart) (v : ScmNum)
    (hv : readNumberTail realpart rest ctx signSeen = NumOut.ok v) : RatInvariant v := by
  unfold readNumberTail at hv
  simp only [Id.run, Id.pure_eq, Id.bind_eq] at hv
  repeat'
    first
      | cases hv
      | split_ifs at hv
      | split at hv
  all_goals
    first
      | exact hr
      | exact ratInv_makeComplex _ _
      | exact ratInv_flonum _

set_option maxHeartbeats 4000000 in
/-- `read_number` preserves the ratnum invariant: every successfully
parsed number satisfies it. -/
theorem read_number_inv (str : List Char) (radix : ℤ) (strict : Bool) (v : ScmNum)
    (hv : read_number str radix strict = NumOut.ok v) : RatInvariant v := by
  unfold read_number at hv
  simp only [Id.run, Id.pure_eq, Id.bind_eq] at hv
  repeat'
    first
      | cases hv
      | split_ifs at hv
      | split at hv
  all_goals
    first
      | exact ratInv_makeComplex _ _
      | exact read_real_inv _ _ _ (by assumption)
      | exact readNumberTail_inv _ _ _ _ (read_real_inv _ _ _ (by assumption)) _ hv

/-- `Scm_StringToNumber` preserves the ratnum invariant. -/
theorem stringToNumber_inv (s : String) (radix : ℤ) (strict : Bool) (v : ScmNum)
    (hv : stringToNumber s radix strict = NumOut.ok v) : RatInvariant v :=
  read_number_inv _ _ _ _ hv

/-- **C7** (confirmed).  Every Ratnum value reachable through the public
operations satisfies the invariants `d > 0`, `gcd(|n|, d) = 1`, `d ≠ 1`
and `n ≠ 0`: rational construction (`Scm_MakeRational`,
`Scm_ReduceRational`), arithmetic (`Scm_Add`, `Scm_Sub`, `Scm_Mul`,
`div_internal` — hence `Scm_Div` and `Scm_DivInexact`), rounding
(`Scm_Round`, all four modes) and the number reader
(`Scm_StringToNumber`) all produce invariant-satisfying values, given
invariant-satisfying inputs where the operation takes numbers at all. -/
theorem c7_ratnum_invariant_reachable :
    (∀ n d : ℤ, RatInvariant (makeRational n d)) ∧
    (∀ x : ScmNum, RatInvariantO (scmReduceRational x)) ∧
    (∀ x y : ScmNum, RatInvariant x → RatInvariant y → RatInvariantO (scmAdd x y)) ∧
    (∀ x y : ScmNum, RatInvariant x → RatInvariant y → RatInvariantO (scmSub x y)) ∧
    (∀ x y : ScmNum, RatInvariant x → RatInvariant y → RatInvariantO (scmMul x y)) ∧
    (∀ x y : ScmNum, ∀ ac : Bool, RatInvariant x → RatInvariant y →
      RatInvariantO (divInternal x y ac)) ∧
    (∀ num : ScmNum, ∀ mode : RoundMode, RatInvariantO (scmRound num mode)) ∧
    (∀ s : String, ∀ radix : ℤ, ∀ strict : Bool, ∀ v : ScmNum,
      stringToNumber s radix strict = NumOut.ok v → RatInvariant v) :=
  ⟨makeRational_inv, scmReduceRational_inv, scmAdd_inv, scmSub_inv, scmMul_inv,
   fun x y ac hx hy => divInternal_inv x y ac hx hy, scmRound_inv, stringToNumber_inv⟩

/-- Witness for C7 at concrete inputs: `1/2 + 1/6 = 2/3` through
`Scm_Add`, and the resulting ratnum `2/3` satisfies the invariant. -/
theorem c7_ratnum_invariant_reachable_w :
    0 < (3 : ℤ) ∧ Int.gcd 2 3 = 1 ∧ (3 : ℤ) ≠ 1 ∧ (2 : ℤ) ≠ 0 :=
  c7_ratnum_invariant_reachable.2.2.1 (ScmNum.ratnum 1 2) (ScmNum.ratnum 1 6)
    (fun n d h => by cases h; decide) (fun n d h => by cases h; decide)
    (ScmNum.ratnum 2 3) (by decide) 2 3 rfl

/-- Sign of the numerator of an integer quotient: for `d > 0`, the
rational `x/d` has numerator sign equal to `sign x`. -/
theorem sign_num_div_cast (x d : ℤ) (hd : 0 < d) :
    (((x : ℚ) / (d : ℚ)).num).sign = x.sign := by
  rcases lt_trichotomy x 0 with hx | hx | hx
  · have hq : (x : ℚ) / (d : ℚ) < 0 :=
      div_neg_of_neg_of_pos (by exact_mod_cast hx) (by exact_mod_cast hd)
    have hn : ((x : ℚ) / (d : ℚ)).num < 0 := Rat.num_neg.mpr hq
    rw [Int.sign_eq_neg_one_of_neg hn, Int.sign_eq_neg_one_of_neg hx]
  · subst hx; norm_num
  · have hq : 0 < (x : ℚ) / (d : ℚ) :=
      div_pos (by exact_mod_cast hx) (by exact_mod_cast hd)
    have hn : 0 < ((x : ℚ) / (d : ℚ)).num := Rat.num_pos.mpr hq
    rw [Int.sign_eq_one_of_pos hn, Int.sign_eq_one_of_pos hx]

/-- **C3 (amended)**.  The three-way compare is exact on the paths that
stay in exact arithmetic: for any two exact integers, `Scm_NumCmp`
returns the sign of the exact difference, and a *bignum* compared
against a ratnum with positive denominator is decided exactly (via
`a·d − n`, the sign of the exact difference `a − n/d`).  The original
claim fails on the cheap screens that go through double subtraction —
SmallInt vs Flonum and SmallInt vs Ratnum — and on the unsound
ratnum-vs-ratnum screen (see the counterexample). -/
theorem c3_amended_exact_integer_compare :
    (∀ a b : ℤ, numCmp (ScmNum.int a) (ScmNum.int b) = some (Int.sign (a - b))) ∧
    (∀ a n d : ℤ, 0 < d → ¬ isSmall a →
      numCmp (ScmNum.int a) (ScmNum.ratnum n d) =
        some (Int.sign ((a : ℚ) - (n : ℚ) / (d : ℚ)).num)) := by
  constructor
  · intro a b; rfl
  · intro a n d hd ha
    have hdq : (d : ℚ) ≠ 0 := by
      exact_mod_cast hd.ne'
    have hcast : (a : ℚ) - (n : ℚ) / (d : ℚ) = ((a * d - n : ℤ) : ℚ) / (d : ℚ) := by
      push_cast
      field_simp
    rw [hcast, sign_num_div_cast (a * d - n) d hd]
    simp only [numCmp, numCmpL1, if_neg ha]

/-- Witness for the amended C3 at concrete inputs: the bignum `2^61`
compared against `1/2`. -/
theorem c3_amended_exact_integer_compare_w :
    numCmp (ScmNum.int (2 ^ 61)) (ScmNum.ratnum 1 2) =
      some (Int.sign (((2 ^ 61 : ℤ) : ℚ) - (1 : ℚ) / (2 : ℚ)).num) :=
  c3_amended_exact_integer_compare.2 (2 ^ 61) 1 2 (by decide) (by decide)

/-- Once the exponent-overflow flag of `read_real`'s exponent loop is
set, it stays set (further digits are skipped). -/
theorem expLoop_ovf_sticky (s : List Char) (e : ℤ) :
    (expLoop s e true).2.1 = true := by
  induction s generalizing e with
  | nil => rfl
  | cons c rest ih =>
    unfold expLoop
    split_ifs with h1 h2
    · exact ih e
    · exact absurd rfl h2
    · rfl

/-- **C8 (amended)**.  When the accumulated decimal exponent reaches the
configured limit (`MAX_EXPONENT = 324`, so magnitudes above 324 always
trip it), `read_real` raises a limit-violation error under `#e` in
strict mode (returns `#f` in non-strict mode); on inexact input it
yields `±∞` by the sign of the *mantissa* only when the exponent is
unsigned/positive — a *negatively*-signed overflowing exponent yields
exact `0.0`, not `±∞` as the original claim stated.  End-to-end:
`"1e325" → +inf.0`, `"-1e325" → -inf.0`, `"#i1e325" → +inf.0`,
`"1e-325" → 0.0`, `"#e1e325"` → error (strict) / `#f` (non-strict). -/
theorem c8_amended_exponent_overflow :
    (∀ (minusp : Bool) (fraction : ℤ) (fracdigs : ℕ) (exponent : ℤ)
        (expMinus : Bool) (rest : List Char) (ctx : NCtx),
      (readCompose minusp fraction fracdigs exponent expMinus true rest ctx).1 =
        (if ctx.exactness = Exactness.exact then
           (if ctx.strict then ROut.rerror else ROut.rfalse)
         else if expMinus then ROut.ok (ScmNum.flonum (DD.fin false 0 0))
         else if minusp then ROut.ok negInf
         else ROut.ok posInf)) ∧
    stringToNumber "1e325" 10 false = NumOut.ok posInf ∧
    stringToNumber "-1e325" 10 false = NumOut.ok negInf ∧
    stringToNumber "#i1e325" 10 false = NumOut.ok posInf ∧
    stringToNumber "1e-325" 10 true = NumOut.ok (ScmNum.flonum (DD.fin false 0 0)) ∧
    stringToNumber "#e1e325" 10 true = NumOut.serror ∧
    stringToNumber "#e1e325" 10 false = NumOut.sfalse := by
  refine ⟨?_, by decide, by decide, by decide, by decide, by decide, by decide⟩
  intro minusp fraction fracdigs exponent expMinus rest ctx
  unfold readCompose numreadError
  rw [if_pos rfl]
  split_ifs <;> rfl

end Gauche
